import Mathlib

/-! # Surfaces: scalar fields over the plane

A shallow embedding of `surfaces.h`.  The scalar type `Real` comes from the
header `real.h`, which is not part of the sources at hand.  The program is
read in two ways.

* Exact arithmetic: `Real` is a type parameter `R`, an ordered field with a
  floor function, for every definition that only needs field arithmetic,
  comparison, `abs`, `floor`, `ceil` and `fmod`; the definitions that call
  `std::sqrt`, `std::sin`, `std::cos` or use `std::numbers::pi` are stated over
  the exact reals `ℝ`.
* Binary64 arithmetic (namespace `Fp`): `Real` is an IEEE-754 binary64 number,
  every operation rounds its exact result to nearest, ties to even.

The two readings agree wherever no rounding, overflow or underflow occurs.
-/

namespace Surfaces

/-! ## Scalar helpers from `<cmath>` -/

section Scalar

variable {R : Type} [LinearOrderedField R] [FloorRing R]

/-- The function `std::floor`: the largest integral value not above `x`, as a scalar. -/
def floor (x : R) : R := ((⌊x⌋ : ℤ) : R)

/-- The function `std::ceil`: the smallest integral value not below `x`, as a scalar. -/
def ceil (x : R) : R := ((⌈x⌉ : ℤ) : R)

/-- Rounding towards zero, the integral quotient used by `std::fmod`. -/
def trunc (x : R) : ℤ := if 0 ≤ x then ⌊x⌋ else ⌈x⌉

/-- The function `std::fmod`: `x - n * y` where `n` is `x / y` with its
fractional part truncated, so the result has the sign of `x`.  Every call in
`surfaces.h` has `y = 2`. -/
def fmod (x y : R) : R := x - ((trunc (x / y) : ℤ) : R) * y

end Scalar

/-! ## Data model -/

/-- The class `Point`: two immutable scalar coordinates. -/
@[ext]
structure Point (R : Type) where
  x : R
  y : R
deriving DecidableEq

/-- The alias `using Surface = std::function<Real(Point)>`. -/
abbrev Surface (R : Type) : Type := Point R → R

/-! ## Generators -/

section Generators

variable {R : Type} [LinearOrderedField R]

/-- The generator `plain()`. -/
def plain : Surface R := fun _ => 0

/-- The generator `slope()`. -/
def slope : Surface R := fun p => p.x

/-- The generator `steps(s)`. -/
def steps [FloorRing R] (s : R) : Surface R :=
  fun p => if s ≤ 0 then 0 else floor (p.x / s)

/-- The generator `checker(s)`. -/
def checker [FloorRing R] (s : R) : Surface R :=
  fun p => if s ≤ 0 then 0 else
    fmod (|floor (p.x / s)| + |floor (p.y / s) + 1|) 2

/-- The generator `sqr()`. -/
def sqr : Surface R := fun p => p.x * p.x

/-- The generator `ellipse(a, b)`. -/
def ellipse (a b : R) : Surface R :=
  fun p => if a ≤ 0 ∨ b ≤ 0 then 0 else
    if p.x * p.x / (a * a) + p.y * p.y / (b * b) ≤ 1 then 1 else 0

/-- The generator `rectangle(a, b)`. -/
def rectangle (a b : R) : Surface R :=
  fun p => if a ≤ 0 ∨ b ≤ 0 then 0 else
    if p.x ≤ |b| ∧ -|b| ≤ p.x ∧ p.y ≤ |a| ∧ -|a| ≤ p.y then 1 else 0

/-- The generator `stripes(s)`. -/
def stripes [FloorRing R] (s : R) : Surface R :=
  fun p => if s ≤ 0 then 0 else |fmod (ceil (p.x / s)) 2|

end Generators

/-- The generator `sin_wave()`. -/
noncomputable def sin_wave : Surface ℝ := fun p => Real.sin p.x

/-- The generator `cos_wave()`. -/
noncomputable def cos_wave : Surface ℝ := fun p => Real.cos p.x

/-- The generator `rings(s)`. -/
noncomputable def rings (s : ℝ) : Surface ℝ :=
  fun p => if s ≤ 0 then 0 else
    if p.x = 0 ∧ p.y = 0 then 1 else
      fmod (ceil (Real.sqrt (p.x * p.x + p.y * p.y) / s)) 2

/-! ## Domain-transform combinators -/

/-- The combinator `rotate(f, deg)`: the captured `rad` is `deg * pi / 180`. -/
noncomputable def rotate (f : Surface ℝ) (deg : ℝ) : Surface ℝ :=
  let rad := deg * Real.pi / 180
  fun p => f (Point.mk (p.x * Real.cos (-rad) - p.y * Real.sin (-rad))
    (p.x * Real.sin (-rad) + p.y * Real.cos (-rad)))

section Combinators

variable {R : Type} [LinearOrderedField R]

/-- The combinator `translate(f, v)`. -/
def translate (f : Surface R) (v : Point R) : Surface R :=
  fun p => f (Point.mk (p.x + |v.x|) (p.y + |v.y|))

/-- The combinator `scale(f, s)`. -/
def scale (f : Surface R) (s : Point R) : Surface R :=
  fun p => f (Point.mk (p.x / s.x) (p.y / s.y))

/-- The combinator `invert(f)`. -/
def invert (f : Surface R) : Surface R :=
  fun p => f (Point.mk p.y p.x)

/-- The combinator `flip(f)`. -/
def flip (f : Surface R) : Surface R :=
  fun p => f (Point.mk (-p.x) p.y)

/-- The combinator `mul(f, c)`. -/
def mul (f : Surface R) (c : R) : Surface R :=
  fun p => f p * c

/-- The combinator `add(f, c)`. -/
def add (f : Surface R) (c : R) : Surface R :=
  fun p => f p + c

end Combinators

/-- The standard rotation of the plane about the origin by the angle `θ`
(in radians): the matrix `[cos θ, -sin θ; sin θ, cos θ]` applied to the column
`(p.x, p.y)`.  This is the reference rotation that `rotate` is compared with. -/
noncomputable def rotateAbout (θ : ℝ) (p : Point ℝ) : Point ℝ :=
  let v := Matrix.mulVec !![Real.cos θ, -Real.sin θ; Real.sin θ, Real.cos θ] ![p.x, p.y]
  Point.mk (v 0) (v 1)

/-! ## Composition mechanism -/

/-- A host function of `n` arguments of type `A` returning `B`. -/
def Host (A B : Type) : Nat → Type
  | 0 => B
  | n + 1 => A → Host A B n

/-- The call expression `h(a 0, ..., a (n - 1))`: the arguments are passed
positionally. -/
def Host.call {A B : Type} : (n : Nat) → Host A B n → (Fin n → A) → B
  | 0, h, _ => h
  | n + 1, h, a => Host.call n (h (a 0)) (fun i => a i.succ)

/-- The host of `n` arguments that hands them, as one tuple, to `g`. -/
def Host.ofTuple {A B : Type} : (n : Nat) → ((Fin n → A) → B) → Host A B n
  | 0, g => g Fin.elim0
  | n + 1, g => fun a => Host.ofTuple n (fun t => g (Fin.cons a t))

/-- The operator `evaluate(h, f...)`: the lambda `p ↦ h(f(p)...)`; the pack `f` has `n`
members, each callable on a point. -/
def evaluate {R A B : Type} {n : Nat} (h : Host A B n) (f : Fin n → Point R → A) :
    Point R → B :=
  fun p => Host.call n h (fun i => f i p)

/-- The trailing pack `f1, fs...` of a `compose` call: each function takes
the type the previous one returns. -/
inductive Chain : Type → Type → Type 1 where
  | nil {A : Type} : Chain A A
  | cons {A B C : Type} (f1 : A → B) (fs : Chain B C) : Chain A C

/-- Left-to-right application of a chain to a value: `fn(...f2(f1(x)))`. -/
def Chain.run : {A C : Type} → Chain A C → A → C
  | _, _, Chain.nil, x => x
  | _, _, Chain.cons f1 fs, x => Chain.run fs (f1 x)

/-- The overload `compose()`: the zero-argument overload returns `std::identity`. -/
def compose0 {A : Type} : A → A := fun x => x

/-- The overloads `compose(f)` and `compose(f, f1, fs...)`: the one-function overload wraps
`f`; the variadic overload fuses the first two functions and recurses. -/
def compose : {A B C : Type} → (A → B) → Chain B C → A → C
  | _, _, _, f, Chain.nil => fun args => f args
  | _, _, _, f, Chain.cons f1 fs => compose (fun args => f1 (f args)) fs

/-! ## Generators with checked partial operations

The same generators, read with `/`, `std::sqrt` and `std::fmod` as partial
operations: a division or `fmod` by zero and the square root of a negative
number are errors (`none`), and an error in a subexpression is the result of
the whole evaluation. -/

namespace Checked

section CheckedGenerators

variable {R : Type} [LinearOrderedField R]

/-- Checked division: an error when the divisor is zero. -/
def div (x y : R) : Option R := if y = 0 then none else some (x / y)

/-- Checked `std::fmod`: an error when the divisor is zero. -/
def fmod [FloorRing R] (x y : R) : Option R :=
  if y = 0 then none else some (Surfaces.fmod x y)

/-- The generator `steps(s)` with checked division. -/
def steps [FloorRing R] (s : R) : Point R → Option R :=
  fun p => if s ≤ 0 then some 0 else
    (div p.x s).bind fun q => some (floor q)

/-- The generator `checker(s)` with checked division and `fmod`. -/
def checker [FloorRing R] (s : R) : Point R → Option R :=
  fun p => if s ≤ 0 then some 0 else
    (div p.x s).bind fun qx =>
    (div p.y s).bind fun qy =>
    fmod (|floor qx| + |floor qy + 1|) 2

/-- The generator `ellipse(a, b)` with checked division. -/
def ellipse (a b : R) : Point R → Option R :=
  fun p => if a ≤ 0 ∨ b ≤ 0 then some 0 else
    (div (p.x * p.x) (a * a)).bind fun u =>
    (div (p.y * p.y) (b * b)).bind fun v =>
    some (if u + v ≤ 1 then 1 else 0)

/-- The generator `stripes(s)` with checked division and `fmod`. -/
def stripes [FloorRing R] (s : R) : Point R → Option R :=
  fun p => if s ≤ 0 then some 0 else
    (div p.x s).bind fun q =>
    (fmod (ceil q) 2).bind fun m => some |m|

end CheckedGenerators

/-- Checked `std::sqrt`: an error on a negative argument. -/
noncomputable def sqrt (x : ℝ) : Option ℝ := if x < 0 then none else some (Real.sqrt x)

/-- The generator `rings(s)` with checked square root, division and `fmod`. -/
noncomputable def rings (s : ℝ) : Point ℝ → Option ℝ :=
  fun p => if s ≤ 0 then some 0 else
    if p.x = 0 ∧ p.y = 0 then some 1 else
      (sqrt (p.x * p.x + p.y * p.y)).bind fun r =>
      (div r s).bind fun q =>
      fmod (ceil q) 2

end Checked

/-! ## The generators and combinators in binary64 arithmetic

The exact ordered-field reading above agrees with the program wherever no
rounding, overflow or underflow occurs.  This part reads `Real` as an IEEE-754
binary64 number, to evaluate the program where rounding matters. -/

namespace Fp

/-- Modelled from the spec: the header `real.h` that declares `Real` is missing;
the spec describes `Real` as a floating-point scalar with IEEE-754 semantics,
taken here as binary64.  A value is a NaN, an infinity with its sign, or a
finite number with its sign bit and its magnitude (so that both zeros exist). -/
inductive Dbl where
  | nan : Dbl
  | inf (neg : Bool) : Dbl
  | fin (neg : Bool) (mag : ℚ) : Dbl
deriving DecidableEq

/-- The signed value of a finite number. -/
def sval (neg : Bool) (mag : ℚ) : ℚ := if neg then -mag else mag

section Rounding

variable {K : Type} [LinearOrderedField K] [FloorRing K]

/-- Rounding to the nearest integer, ties to the even one. -/
def roundHalfEven (y : K) : ℤ :=
  if y - (⌊y⌋ : K) < 1 / 2 then ⌊y⌋
  else if 1 / 2 < y - (⌊y⌋ : K) then ⌊y⌋ + 1
  else if ⌊y⌋ % 2 = 0 then ⌊y⌋ else ⌊y⌋ + 1

/-- The exponent of the unit in the last place for the magnitude `m`: 52 below
the binary exponent of `m`, and at least `-1074` (subnormal numbers). -/
def ulpExp (m : K) : ℤ := max (Int.log 2 m) (-1022) - 52

/-- Rounding of the magnitude `m` with the sign `neg` to binary64, to nearest
with ties to even: a multiple of the unit in the last place, or an infinity
when the rounded magnitude reaches `2 ^ 1024`. -/
def roundMag (neg : Bool) (m : K) : Dbl :=
  if (2 : ℚ) ^ (1024 : ℤ) ≤ (roundHalfEven (m / (2 : K) ^ ulpExp m) : ℚ) * (2 : ℚ) ^ ulpExp m
  then Dbl.inf neg
  else Dbl.fin neg ((roundHalfEven (m / (2 : K) ^ ulpExp m) : ℚ) * (2 : ℚ) ^ ulpExp m)

/-- Rounding of the exact result `x` to binary64. -/
def roundTo (x : K) : Dbl := roundMag (decide (x < 0)) |x|

end Rounding

namespace Dbl

/-- The conversion of an integer literal such as `0`, `1`, `2` to `Real`. -/
def ofNat (n : Nat) : Dbl := roundTo (n : ℚ)

/-- Unary minus: flips the sign. -/
def neg : Dbl → Dbl
  | nan => nan
  | inf s => inf (!s)
  | fin s m => fin (!s) m

/-- The function `std::abs`: clears the sign. -/
def abs : Dbl → Dbl
  | nan => nan
  | inf _ => inf false
  | fin _ m => fin false m

/-- Multiplication `a * b`. -/
def mul : Dbl → Dbl → Dbl
  | nan, _ => nan
  | _, nan => nan
  | inf s, inf t => inf (xor s t)
  | inf s, fin t n => if n = 0 then nan else inf (xor s t)
  | fin s m, inf t => if m = 0 then nan else inf (xor s t)
  | fin s m, fin t n => roundMag (xor s t) (m * n)

/-- Division `a / b`: a finite non-zero number over zero is an infinity, zero
over zero and infinity over infinity are NaN. -/
def div : Dbl → Dbl → Dbl
  | nan, _ => nan
  | _, nan => nan
  | inf _, inf _ => nan
  | inf s, fin t _ => inf (xor s t)
  | fin s _, inf t => fin (xor s t) 0
  | fin s m, fin t n =>
      if n = 0 then (if m = 0 then nan else inf (xor s t))
      else roundMag (xor s t) (m / n)

/-- Addition `a + b`: an exact zero sum is `-0` only when both terms are `-0`. -/
def add : Dbl → Dbl → Dbl
  | nan, _ => nan
  | _, nan => nan
  | inf s, inf t => if s = t then inf s else nan
  | inf s, fin _ _ => inf s
  | fin _ _, inf t => inf t
  | fin s m, fin t n =>
      if sval s m + sval t n = 0 then fin (s && t) 0
      else roundTo (sval s m + sval t n)

/-- Subtraction `a - b`. -/
def sub (a b : Dbl) : Dbl := add a (neg b)

/-- The comparison `a <= b`: false when either side is NaN. -/
def le : Dbl → Dbl → Bool
  | nan, _ => false
  | _, nan => false
  | inf s, inf t => s || !t
  | inf s, fin _ _ => s
  | fin _ _, inf t => !t
  | fin s m, fin t n => decide (sval s m ≤ sval t n)

/-- The comparison `a < b`: false when either side is NaN. -/
def lt : Dbl → Dbl → Bool
  | nan, _ => false
  | _, nan => false
  | inf s, inf t => s && !t
  | inf s, fin _ _ => s
  | fin _ _, inf t => !t
  | fin s m, fin t n => decide (sval s m < sval t n)

/-- The comparison `a == b`: false when either side is NaN, true for `0 == -0`. -/
def eq : Dbl → Dbl → Bool
  | nan, _ => false
  | _, nan => false
  | inf s, inf t => s == t
  | inf _, fin _ _ => false
  | fin _ _, inf _ => false
  | fin s m, fin t n => decide (sval s m = sval t n)

/-- The function `std::floor`; the result is exact, and a zero result keeps the
sign of the argument. -/
def floor : Dbl → Dbl
  | nan => nan
  | inf s => inf s
  | fin s m =>
      fin (if ⌊sval s m⌋ = 0 then s else decide (⌊sval s m⌋ < 0)) |((⌊sval s m⌋ : ℤ) : ℚ)|

/-- The function `std::ceil`; the result is exact, and a zero result keeps the
sign of the argument. -/
def ceil : Dbl → Dbl
  | nan => nan
  | inf s => inf s
  | fin s m =>
      fin (if ⌈sval s m⌉ = 0 then s else decide (⌈sval s m⌉ < 0)) |((⌈sval s m⌉ : ℤ) : ℚ)|

/-- The function `std::fmod`: exact, with the sign of `x`; NaN when `x` is
infinite or `y` is zero, and `x` itself when `y` is infinite. -/
def fmod : Dbl → Dbl → Dbl
  | nan, _ => nan
  | _, nan => nan
  | inf _, _ => nan
  | fin s m, inf _ => fin s m
  | fin s m, fin _ n =>
      if n = 0 then nan else fin s (|m| - ((⌊|m| / |n|⌋ : ℤ) : ℚ) * |n|)

/-- The function `std::sqrt`, correctly rounded: NaN on a negative argument,
and `sqrt(-0) = -0`. -/
noncomputable def sqrt : Dbl → Dbl
  | nan => nan
  | inf s => if s then nan else inf false
  | fin s m =>
      if m = 0 then fin s 0 else if s then nan else roundMag false (Real.sqrt (m : ℝ))

/-- The function `std::cos`, taken as correctly rounded (the accuracy of the
library function is left to the implementation): NaN at an infinity. -/
noncomputable def cos : Dbl → Dbl
  | nan => nan
  | inf _ => nan
  | fin s m => roundTo (Real.cos ((sval s m : ℚ) : ℝ))

/-- The function `std::sin`, taken as correctly rounded (the accuracy of the
library function is left to the implementation): NaN at an infinity, and
`sin(-0) = -0`. -/
noncomputable def sin : Dbl → Dbl
  | nan => nan
  | inf _ => nan
  | fin s m => if m = 0 then fin s 0 else roundTo (Real.sin ((sval s m : ℚ) : ℝ))

/-- The constant `std::numbers::pi` as a binary64 number, `0x400921FB54442D18`. -/
def pi : Dbl := fin false (884279719003555 / 2 ^ 48)

end Dbl

/-- The generator `plain()`. -/
def plain : Surface Dbl := fun _ => Dbl.ofNat 0

/-- The generator `slope()`. -/
def slope : Surface Dbl := fun p => p.x

/-- The generator `steps(s)`. -/
def steps (s : Dbl) : Surface Dbl :=
  fun p => if Dbl.le s (Dbl.ofNat 0) then Dbl.ofNat 0 else Dbl.floor (Dbl.div p.x s)

/-- The generator `checker(s)`. -/
def checker (s : Dbl) : Surface Dbl :=
  fun p => if Dbl.le s (Dbl.ofNat 0) then Dbl.ofNat 0 else
    Dbl.fmod
      (Dbl.add (Dbl.abs (Dbl.floor (Dbl.div p.x s)))
        (Dbl.abs (Dbl.add (Dbl.floor (Dbl.div p.y s)) (Dbl.ofNat 1))))
      (Dbl.ofNat 2)

/-- The generator `rings(s)`. -/
noncomputable def rings (s : Dbl) : Surface Dbl :=
  fun p => if Dbl.le s (Dbl.ofNat 0) then Dbl.ofNat 0 else
    if Dbl.eq p.x (Dbl.ofNat 0) && Dbl.eq p.y (Dbl.ofNat 0) then Dbl.ofNat 1 else
      Dbl.fmod
        (Dbl.ceil (Dbl.div (Dbl.sqrt (Dbl.add (Dbl.mul p.x p.x) (Dbl.mul p.y p.y))) s))
        (Dbl.ofNat 2)

/-- The generator `ellipse(a, b)`. -/
def ellipse (a b : Dbl) : Surface Dbl :=
  fun p => if Dbl.le a (Dbl.ofNat 0) || Dbl.le b (Dbl.ofNat 0) then Dbl.ofNat 0 else
    if Dbl.le
        (Dbl.add (Dbl.div (Dbl.mul p.x p.x) (Dbl.mul a a))
          (Dbl.div (Dbl.mul p.y p.y) (Dbl.mul b b)))
        (Dbl.ofNat 1)
    then Dbl.ofNat 1 else Dbl.ofNat 0

/-- The generator `stripes(s)`. -/
def stripes (s : Dbl) : Surface Dbl :=
  fun p => if Dbl.le s (Dbl.ofNat 0) then Dbl.ofNat 0 else
    Dbl.abs (Dbl.fmod (Dbl.ceil (Dbl.div p.x s)) (Dbl.ofNat 2))

/-- The combinator `rotate(f, deg)`: the captured `rad` is `deg * pi / 180`. -/
noncomputable def rotate (f : Surface Dbl) (deg : Dbl) : Surface Dbl :=
  let rad := Dbl.div (Dbl.mul deg Dbl.pi) (Dbl.ofNat 180)
  fun p => f (Point.mk
    (Dbl.sub (Dbl.mul p.x (Dbl.cos (Dbl.neg rad))) (Dbl.mul p.y (Dbl.sin (Dbl.neg rad))))
    (Dbl.add (Dbl.mul p.x (Dbl.sin (Dbl.neg rad))) (Dbl.mul p.y (Dbl.cos (Dbl.neg rad)))))

/-- The combinator `scale(f, s)`. -/
def scale (f : Surface Dbl) (s : Point Dbl) : Surface Dbl :=
  fun p => f (Point.mk (Dbl.div p.x s.x) (Dbl.div p.y s.y))

/-- The combinator `mul(f, c)`. -/
def mul (f : Surface Dbl) (c : Dbl) : Surface Dbl :=
  fun p => Dbl.mul (f p) c

/-! ### Binary64 generators with checked partial operations -/

namespace Checked

/-- Checked division: an error when the divisor compares equal to zero. -/
def div (x y : Dbl) : Option Dbl :=
  if Dbl.eq y (Dbl.ofNat 0) then none else some (Dbl.div x y)

/-- Checked `std::fmod`: an error when the divisor compares equal to zero. -/
def fmod (x y : Dbl) : Option Dbl :=
  if Dbl.eq y (Dbl.ofNat 0) then none else some (Dbl.fmod x y)

/-- Checked `std::sqrt`: an error on an argument below zero. -/
noncomputable def sqrt (x : Dbl) : Option Dbl :=
  if Dbl.lt x (Dbl.ofNat 0) then none else some (Dbl.sqrt x)

/-- The generator `steps(s)` with checked division. -/
def steps (s : Dbl) : Point Dbl → Option Dbl :=
  fun p => if Dbl.le s (Dbl.ofNat 0) then some (Dbl.ofNat 0) else
    (div p.x s).bind fun q => some (Dbl.floor q)

/-- The generator `checker(s)` with checked division and `fmod`. -/
def checker (s : Dbl) : Point Dbl → Option Dbl :=
  fun p => if Dbl.le s (Dbl.ofNat 0) then some (Dbl.ofNat 0) else
    (div p.x s).bind fun qx =>
    (div p.y s).bind fun qy =>
    fmod
      (Dbl.add (Dbl.abs (Dbl.floor qx)) (Dbl.abs (Dbl.add (Dbl.floor qy) (Dbl.ofNat 1))))
      (Dbl.ofNat 2)

/-- The generator `rings(s)` with checked square root, division and `fmod`. -/
noncomputable def rings (s : Dbl) : Point Dbl → Option Dbl :=
  fun p => if Dbl.le s (Dbl.ofNat 0) then some (Dbl.ofNat 0) else
    if Dbl.eq p.x (Dbl.ofNat 0) && Dbl.eq p.y (Dbl.ofNat 0) then some (Dbl.ofNat 1) else
      (sqrt (Dbl.add (Dbl.mul p.x p.x) (Dbl.mul p.y p.y))).bind fun r =>
      (div r s).bind fun q =>
      fmod (Dbl.ceil q) (Dbl.ofNat 2)

/-- The generator `ellipse(a, b)` with checked division. -/
def ellipse (a b : Dbl) : Point Dbl → Option Dbl :=
  fun p => if Dbl.le a (Dbl.ofNat 0) || Dbl.le b (Dbl.ofNat 0) then some (Dbl.ofNat 0) else
    (div (Dbl.mul p.x p.x) (Dbl.mul a a)).bind fun u =>
    (div (Dbl.mul p.y p.y) (Dbl.mul b b)).bind fun v =>
    some (if Dbl.le (Dbl.add u v) (Dbl.ofNat 1) then Dbl.ofNat 1 else Dbl.ofNat 0)

/-- The generator `stripes(s)` with checked division and `fmod`. -/
def stripes (s : Dbl) : Point Dbl → Option Dbl :=
  fun p => if Dbl.le s (Dbl.ofNat 0) then some (Dbl.ofNat 0) else
    (div p.x s).bind fun q =>
    (fmod (Dbl.ceil q) (Dbl.ofNat 2)).bind fun m => some (Dbl.abs m)

end Checked

end Fp

/-! ## Properties of the composition mechanism -/

lemma Host.call_ofTuple {A B : Type} :
    ∀ (n : Nat) (g : (Fin n → A) → B) (a : Fin n → A),
      Host.call n (Host.ofTuple n g) a = g a
  | 0, g, a => by
      have ha : a = Fin.elim0 := funext fun i => i.elim0
      simp [Host.call, Host.ofTuple, ha]
  | n + 1, g, a => by
      have hcons : (Fin.cons (a 0) (fun i => a i.succ) : Fin (n + 1) → A) = a :=
        Fin.cons_self_tail a
      simp only [Host.call, Host.ofTuple]
      rw [Host.call_ofTuple n]
      exact congrArg g hcons

/-- C1: `compose(f1, ..., fn)(x) = fn(...f2(f1(x))...)` for every non-empty
chain of unary functions: the functions are applied left to right, each output
being the sole input of the next.  In particular `compose(f)(x) = f(x)` and
`compose(f, g)(x) = g(f(x))`. -/
theorem compose_left_to_right {A B C : Type} (f : A → B) (fs : Chain B C) (x : A) :
    compose f fs x = Chain.run (Chain.cons f fs) x
      ∧ compose f Chain.nil x = f x
      ∧ ∀ {D : Type} (g : B → D), compose f (Chain.cons g Chain.nil) x = g (f x) := by
  refine ⟨?_, rfl, fun g => rfl⟩
  induction fs with
  | nil => rfl
  | cons f1 fs ih => exact ih (fun args => f1 (f args))

/-- C2: `evaluate(h, f1, ..., fn)(p) = h(f1(p), ..., fn(p))`: every field is
sampled at the same point `p` and the results reach the host in the order the
fields were given.  The host of arity `n` is presented as a function `g` of the
tuple of its arguments and, for `n = 2`, as a curried function `h`. -/
theorem evaluate_samples_same_point {R A B : Type} {n : Nat}
    (g : (Fin n → A) → B) (f : Fin n → Point R → A) (p : Point R) :
    evaluate (Host.ofTuple n g) f p = g (fun i => f i p)
      ∧ ∀ (h : A → A → B) (f1 f2 : Point R → A),
          @evaluate R A B 2 h ![f1, f2] p = h (f1 p) (f2 p) := by
  refine ⟨?_, fun h f1 f2 => rfl⟩
  exact Host.call_ofTuple n g (fun i => f i p)

/-! ## Properties of the transform combinators -/

/-- C3: `translate(f, Point(a, b))(p) = f(Point(p.x + |a|, p.y + |b|))`, so
the sign of either offset component never changes the result. -/
theorem translate_abs_offset {R : Type} [LinearOrderedField R]
    (f : Surface R) (a b : R) (p : Point R) :
    translate f (Point.mk a b) p = f (Point.mk (p.x + |a|) (p.y + |b|))
      ∧ translate f (Point.mk (-a) b) p = translate f (Point.mk a b) p
      ∧ translate f (Point.mk a (-b)) p = translate f (Point.mk a b) p
      ∧ translate f (Point.mk (-a) (-b)) p = translate f (Point.mk a b) p := by
  simp [translate, abs_neg]

/-- C5, as amended: over the exact reals `rotate(f, deg)(p) = f(q)` where `q` is
`p` rotated about the origin by
`-deg` degrees, that is by the standard rotation matrix of the angle
`-deg * pi / 180`; for instance `rotate(f, 90)(Point(x, y)) = f(Point(y, -x))`. -/
theorem rotate_samples_rotated_point (f : Surface ℝ) (deg : ℝ) (p : Point ℝ) :
    rotate f deg p = f (rotateAbout (-deg * Real.pi / 180) p)
      ∧ ∀ x y : ℝ, rotate f 90 (Point.mk x y) = f (Point.mk y (-x)) := by
  constructor
  · have h : -deg * Real.pi / 180 = -(deg * Real.pi / 180) := by ring
    rw [h]
    show f _ = f _
    congr 1
    ext <;> simp [rotateAbout, Matrix.mulVec, Matrix.dotProduct, Fin.sum_univ_two] <;> ring
  · intro x y
    have h : (90 : ℝ) * Real.pi / 180 = Real.pi / 2 := by ring
    simp [rotate, h]

/-! ## Properties of the generators -/

section GeneratorProps

variable {R : Type} [LinearOrderedField R]

lemma floor_intCast_div_two [FloorRing R] (n : ℤ) : ⌊(n : R) / 2⌋ = n / 2 := by
  have h1 : 2 * (n / 2) + n % 2 = n := Int.ediv_add_emod n 2
  have h2 : 0 ≤ n % 2 := Int.emod_nonneg _ (by norm_num)
  have h3 : n % 2 < 2 := Int.emod_lt_of_pos _ (by norm_num)
  have h1R : 2 * ((n / 2 : ℤ) : R) + ((n % 2 : ℤ) : R) = (n : R) := by exact_mod_cast h1
  have h2R : (0 : R) ≤ ((n % 2 : ℤ) : R) := by exact_mod_cast h2
  have h3R : ((n % 2 : ℤ) : R) < 2 := by exact_mod_cast h3
  rw [Int.floor_eq_iff]
  constructor
  · rw [le_div_iff₀ (by norm_num : (0 : R) < 2)]
    linarith
  · rw [div_lt_iff₀ (by norm_num : (0 : R) < 2)]
    linarith

/-- On a non-negative integral value `fmod(·, 2)` is the remainder modulo 2. -/
lemma fmod_two_of_nonneg [FloorRing R] (n : ℤ) (hn : 0 ≤ n) :
    fmod (n : R) 2 = ((n % 2 : ℤ) : R) := by
  have hq : (0 : R) ≤ (n : R) / 2 := by
    have : (0 : R) ≤ (n : R) := by exact_mod_cast hn
    positivity
  have h1 : 2 * (n / 2) + n % 2 = n := Int.ediv_add_emod n 2
  have h1R : 2 * ((n / 2 : ℤ) : R) + ((n % 2 : ℤ) : R) = (n : R) := by exact_mod_cast h1
  simp only [fmod, trunc, if_pos hq, floor_intCast_div_two]
  linarith

/-- The argument that `checker` hands to `fmod` is an integral value. -/
lemma checker_arg_cast [FloorRing R] (a b : R) :
    |floor a| + |floor b + 1| = (((|⌊a⌋| + |⌊b⌋ + 1| : ℤ)) : R) := by
  simp [floor]

lemma steps_of_nonpos [FloorRing R] (s : R) (hs : s ≤ 0) (p : Point R) : steps s p = 0 := by
  simp [steps, hs]

lemma checker_of_nonpos [FloorRing R] (s : R) (hs : s ≤ 0) (p : Point R) :
    checker s p = 0 := by
  simp [checker, hs]

lemma stripes_of_nonpos [FloorRing R] (s : R) (hs : s ≤ 0) (p : Point R) :
    stripes s p = 0 := by
  simp [stripes, hs]

lemma rings_of_nonpos (s : ℝ) (hs : s ≤ 0) (p : Point ℝ) : rings s p = 0 := by
  simp [rings, hs]

/-- C7: for `s <= 0`, `steps(s)`, `checker(s)`, `rings(s)` and `stripes(s)` are 0
at every point; for `rings` also at the origin, where the `s <= 0` test comes
before the origin test. -/
theorem nonpositive_scale_gives_zero (s : ℝ) (hs : s ≤ 0) (p : Point ℝ) :
    steps s p = 0 ∧ checker s p = 0 ∧ rings s p = 0 ∧ stripes s p = 0
      ∧ rings s (Point.mk 0 0) = 0 :=
  ⟨steps_of_nonpos s hs p, checker_of_nonpos s hs p, rings_of_nonpos s hs p,
    stripes_of_nonpos s hs p, rings_of_nonpos s hs _⟩

/-- Witness for C7: scale `-2` at the point `(3, 4)`. -/
theorem nonpositive_scale_gives_zero_witness :
    (-2 : ℝ) ≤ 0
      ∧ (steps (-2 : ℝ) (Point.mk 3 4) = 0 ∧ checker (-2 : ℝ) (Point.mk 3 4) = 0
          ∧ rings (-2 : ℝ) (Point.mk 3 4) = 0 ∧ stripes (-2 : ℝ) (Point.mk 3 4) = 0
          ∧ rings (-2 : ℝ) (Point.mk 0 0) = 0) :=
  ⟨by norm_num, nonpositive_scale_gives_zero (-2) (by norm_num) (Point.mk 3 4)⟩

/-- C8: when `a <= 0` or `b <= 0`, `ellipse(a, b)` and `rectangle(a, b)` are 0 at
every point. -/
theorem nonpositive_extent_gives_zero (a b : R) (hab : a ≤ 0 ∨ b ≤ 0) (p : Point R) :
    ellipse a b p = 0 ∧ rectangle a b p = 0 := by
  simp [ellipse, rectangle, hab]

/-- Witness for C8 over the rationals: `a = 3`, `b = -1` at the origin. -/
theorem nonpositive_extent_gives_zero_witness :
    ((3 : ℚ) ≤ 0 ∨ (-1 : ℚ) ≤ 0)
      ∧ (ellipse (3 : ℚ) (-1) (Point.mk 0 0) = 0
          ∧ rectangle (3 : ℚ) (-1) (Point.mk 0 0) = 0) :=
  ⟨Or.inr (by norm_num),
    nonpositive_extent_gives_zero 3 (-1) (Or.inr (by norm_num)) (Point.mk 0 0)⟩

/-- C9: for `s > 0`, `rings(s)(Point(0,0)) = 1`, although the general formula
`ceil(sqrt(x*x + y*y) / s) mod 2` is 0 at the origin. -/
theorem rings_origin_sentinel (s : ℝ) (hs : 0 < s) :
    rings s (Point.mk 0 0) = 1
      ∧ fmod (ceil (Real.sqrt ((0 : ℝ) * 0 + 0 * 0) / s)) 2 = 0 := by
  constructor
  · simp [rings, not_le.mpr hs]
  · simp [fmod, ceil, trunc]

/-- Witness for C9: scale 3. -/
theorem rings_origin_sentinel_witness :
    (0 : ℝ) < 3
      ∧ (rings (3 : ℝ) (Point.mk 0 0) = 1
          ∧ fmod (ceil (Real.sqrt ((0 : ℝ) * 0 + 0 * 0) / 3)) 2 = 0) :=
  ⟨by norm_num, rings_origin_sentinel 3 (by norm_num)⟩

end GeneratorProps

/-! ## Further properties of generators and combinators -/

section MoreProps

variable {R : Type} [LinearOrderedField R]

/-- C11: for `a > 0` and `b > 0`, `rectangle(a, b)(p) = 1` exactly when
`|p.x| <= b` and `|p.y| <= a`, and otherwise it is 0: `a` is the half-extent
along `y` and `b` the half-extent along `x`. -/
theorem rectangle_half_extents (a b : R) (ha : 0 < a) (hb : 0 < b) (p : Point R) :
    (rectangle a b p = 1 ↔ |p.x| ≤ b ∧ |p.y| ≤ a)
      ∧ (¬ (|p.x| ≤ b ∧ |p.y| ≤ a) → rectangle a b p = 0) := by
  have hcond : (p.x ≤ |b| ∧ -|b| ≤ p.x ∧ p.y ≤ |a| ∧ -|a| ≤ p.y)
      ↔ (|p.x| ≤ b ∧ |p.y| ≤ a) := by
    rw [abs_of_pos ha, abs_of_pos hb, abs_le, abs_le]
    tauto
  have hguard : ¬ (a ≤ 0 ∨ b ≤ 0) := by
    rintro (h | h)
    · exact absurd ha (not_lt.mpr h)
    · exact absurd hb (not_lt.mpr h)
  have hval : rectangle a b p = if |p.x| ≤ b ∧ |p.y| ≤ a then 1 else 0 := by
    simp only [rectangle, if_neg hguard, hcond]
  rw [hval]
  constructor
  · constructor
    · intro h
      by_contra hn
      rw [if_neg hn] at h
      exact zero_ne_one h
    · intro h
      rw [if_pos h]
  · intro h
    rw [if_neg h]

/-- Witness for C11 over the rationals: `a = 1`, `b = 2` at the point `(2, -1)`. -/
theorem rectangle_half_extents_witness :
    (0 : ℚ) < 1 ∧ (0 : ℚ) < 2
      ∧ ((rectangle (1 : ℚ) 2 (Point.mk 2 (-1)) = 1 ↔ |(2 : ℚ)| ≤ 2 ∧ |(-1 : ℚ)| ≤ 1)
          ∧ (¬ (|(2 : ℚ)| ≤ 2 ∧ |(-1 : ℚ)| ≤ 1) → rectangle (1 : ℚ) 2 (Point.mk 2 (-1)) = 0)) :=
  ⟨by norm_num, by norm_num,
    rectangle_half_extents 1 2 (by norm_num) (by norm_num) (Point.mk 2 (-1))⟩

/-- C13: `flip(flip(f))(p) = f(p)`. -/
theorem flip_involution (f : Surface R) (p : Point R) :
    flip (flip f) p = f p := by
  cases p
  simp [flip]

/-- C14, as amended: in exact arithmetic (any ordered field)
`mul(mul(f, c1), c2)(p) = mul(f, c1 * c2)(p)`. -/
theorem mul_mul (f : Surface R) (c1 c2 : R) (p : Point R) :
    mul (mul f c1) c2 p = mul f (c1 * c2) p := by
  simp [mul, mul_assoc]

end MoreProps

/-- C12: `invert(invert(f))(p) = f(p)`. -/
theorem invert_involution {R : Type} (f : Surface R) (p : Point R) :
    invert (invert f) p = f p := by
  cases p
  simp [invert]

/-- C15: the zero-argument `compose()` is the identity: applied to any
argument it returns it unchanged. -/
theorem compose0_identity {A : Type} (x : A) :
    compose0 x = x ∧ (compose0 : A → A) = id :=
  ⟨rfl, rfl⟩

/-- C17: over the exact reals rotations compose additively:
`rotate(rotate(f, a), b)(p) = rotate(f, a + b)(p)`. -/
theorem rotate_rotate (f : Surface ℝ) (a b : ℝ) (p : Point ℝ) :
    rotate (rotate f a) b p = rotate f (a + b) p := by
  have h : -((a + b) * Real.pi / 180) = -(a * Real.pi / 180) + -(b * Real.pi / 180) := by
    ring
  show f _ = f _
  congr 1
  simp only [h, Real.cos_add, Real.sin_add]
  ext <;> simp only <;> ring

/-! ## Totality of the generators -/

section TotalityLemmas

variable {R : Type} [LinearOrderedField R]

end TotalityLemmas

/-! ## Alternation of `checker` -/

section CheckerParity

variable {R : Type} [LinearOrderedField R] [FloorRing R]

/-- For `s > 0`, `checker(s)` is the remainder modulo 2 of an integer. -/
lemma checker_of_pos (s : R) (hs : 0 < s) (q : Point R) :
    checker s q = (((|⌊q.x / s⌋| + |⌊q.y / s⌋ + 1|) % 2 : ℤ) : R) := by
  simp only [checker, if_neg (not_le.mpr hs), checker_arg_cast]
  exact fmod_two_of_nonneg _ (by positivity)

/-- Moving to the next integer flips the parity of `|m| + k`. -/
lemma abs_succ_add_emod_two (m k : ℤ) : (|m + 1| + k) % 2 = 1 - (|m| + k) % 2 := by
  rcases abs_choice m with h1 | h1 <;> rcases abs_choice (m + 1) with h2 | h2 <;>
    rw [h1, h2] <;> omega

lemma floor_add_self_div (x s : R) (hs : 0 < s) : ⌊(x + s) / s⌋ = ⌊x / s⌋ + 1 := by
  have h : (x + s) / s = x / s + 1 := by
    field_simp
  rw [h, Int.floor_add_one]

/-- C18, as amended: in exact arithmetic (any ordered field with a floor), for
`s > 0`, `checker(s)` takes a value in `{0, 1}` and takes the
opposite value on the horizontally and on the vertically adjacent cell:
`checker(s)(x + s, y) = 1 - checker(s)(x, y)` and
`checker(s)(x, y + s) = 1 - checker(s)(x, y)`, at every point. -/
theorem checker_alternates (s : R) (hs : 0 < s) (x y : R) :
    (checker s (Point.mk x y) = 0 ∨ checker s (Point.mk x y) = 1)
      ∧ checker s (Point.mk (x + s) y) = 1 - checker s (Point.mk x y)
      ∧ checker s (Point.mk x (y + s)) = 1 - checker s (Point.mk x y) := by
  simp only [checker_of_pos s hs, floor_add_self_div _ s hs]
  refine ⟨?_, ?_, ?_⟩
  · rcases Int.emod_two_eq_zero_or_one (|⌊x / s⌋| + |⌊y / s⌋ + 1|) with h | h
    · left
      rw [h]
      simp
    · right
      rw [h]
      simp
  · rw [abs_succ_add_emod_two]
    push_cast
    ring
  · rw [add_comm |⌊x / s⌋| |⌊y / s⌋ + 1 + 1|, abs_succ_add_emod_two,
      add_comm |⌊y / s⌋ + 1| |⌊x / s⌋|]
    push_cast
    ring

/-- Witness for C18 over the rationals: scale 2 at `(-3, -1)`, next to both axes. -/
theorem checker_alternates_witness :
    (0 : ℚ) < 2
      ∧ ((checker (2 : ℚ) (Point.mk (-3) (-1)) = 0 ∨ checker (2 : ℚ) (Point.mk (-3) (-1)) = 1)
          ∧ checker (2 : ℚ) (Point.mk (-3 + 2) (-1)) = 1 - checker (2 : ℚ) (Point.mk (-3) (-1))
          ∧ checker (2 : ℚ) (Point.mk (-3) (-1 + 2))
              = 1 - checker (2 : ℚ) (Point.mk (-3) (-1))) :=
  ⟨by norm_num, checker_alternates 2 (by norm_num) (-3) (-1)⟩

end CheckerParity

/-! ## Rotation and scale of generators -/

/-- A rotation of the sampling point keeps the squared distance from the origin. -/
lemma rotated_sq_dist (x y θ : ℝ) :
    (x * Real.cos θ - y * Real.sin θ) * (x * Real.cos θ - y * Real.sin θ)
      + (x * Real.sin θ + y * Real.cos θ) * (x * Real.sin θ + y * Real.cos θ)
      = x * x + y * y := by
  have h := Real.cos_sq_add_sin_sq θ
  have e : (x * Real.cos θ - y * Real.sin θ) * (x * Real.cos θ - y * Real.sin θ)
      + (x * Real.sin θ + y * Real.cos θ) * (x * Real.sin θ + y * Real.cos θ)
      = (x * x + y * y) * (Real.cos θ ^ 2 + Real.sin θ ^ 2) := by ring
  rw [e, h, mul_one]

/-- The rotated sampling point is the origin exactly when the point is. -/
lemma rotated_eq_zero_iff (x y θ : ℝ) :
    (x * Real.cos θ - y * Real.sin θ = 0 ∧ x * Real.sin θ + y * Real.cos θ = 0)
      ↔ (x = 0 ∧ y = 0) := by
  constructor
  · rintro ⟨h1, h2⟩
    have h := rotated_sq_dist x y θ
    rw [h1, h2] at h
    have h0 : x * x + y * y = 0 := by linarith
    exact mul_self_add_mul_self_eq_zero.mp h0
  · rintro ⟨rfl, rfl⟩
    simp

/-- C19: over the exact reals `rings` is rotation-invariant:
`rotate(rings(s), deg)(p) = rings(s)(p)` for every `s`, `deg` and `p`. -/
theorem rings_rotation_invariant (s deg : ℝ) (p : Point ℝ) :
    rotate (rings s) deg p = rings s p := by
  simp only [rotate, rings, rotated_sq_dist, rotated_eq_zero_iff]

/-! ## Binary64 arithmetic: rounding lemmas -/

namespace Fp

section RoundingLemmas

variable {K : Type} [LinearOrderedField K] [FloorRing K]

/-- The binary exponent of a positive number is determined by its binade. -/
lemma log_two_eq {m : K} {e : ℤ} (h1 : (2 : K) ^ e ≤ m) (h2 : m < (2 : K) ^ (e + 1)) :
    Int.log 2 m = e := by
  have hm : 0 < m := lt_of_lt_of_le (by positivity) h1
  have a : e ≤ Int.log 2 m :=
    (Int.zpow_le_iff_le_log (by norm_num) hm).mp (by simpa using h1)
  have b : Int.log 2 m < e + 1 :=
    (Int.lt_zpow_iff_log_lt (by norm_num) hm).mp (by simpa using h2)
  omega

/-- A number strictly within half a unit of an integer rounds to it. -/
lemma roundHalfEven_of_lt {y : K} {n : ℤ} (h1 : (n : K) - 1 / 2 < y) (h2 : y < (n : K) + 1 / 2) :
    roundHalfEven y = n := by
  unfold roundHalfEven
  by_cases hy : (n : K) ≤ y
  · have hf : ⌊y⌋ = n := by
      rw [Int.floor_eq_iff]
      constructor
      · exact hy
      · linarith
    rw [hf, if_pos (by linarith)]
  · have hf : ⌊y⌋ = n - 1 := by
      rw [Int.floor_eq_iff]
      push_cast
      constructor
      · linarith
      · linarith [not_le.mp hy]
    rw [hf]
    push_cast
    rw [if_neg (by linarith), if_pos (by linarith)]
    ring

lemma roundHalfEven_intCast (n : ℤ) : roundHalfEven (n : K) = n :=
  roundHalfEven_of_lt (by linarith) (by linarith)

/-- A tie above an even integer rounds down to it. -/
lemma roundHalfEven_even_add_half {f : ℤ} (hf : f % 2 = 0) :
    roundHalfEven ((f : K) + 1 / 2) = f := by
  unfold roundHalfEven
  have hfl : ⌊(f : K) + 1 / 2⌋ = f := by
    rw [Int.floor_eq_iff]
    constructor <;> linarith
  rw [hfl]
  have e : (f : K) + 1 / 2 - (f : K) = 1 / 2 := by ring
  rw [e, if_neg (lt_irrefl _), if_neg (lt_irrefl _), if_pos hf]

/-- Rounding to nearest never goes below an integer lower bound. -/
lemma le_roundHalfEven {y : K} {n : ℤ} (h : (n : K) ≤ y) : n ≤ roundHalfEven y := by
  have hf : n ≤ ⌊y⌋ := Int.le_floor.mpr h
  unfold roundHalfEven
  split_ifs <;> omega

/-- Rounding to nearest never goes above an integer upper bound. -/
lemma roundHalfEven_le {y : K} {n : ℤ} (h : y ≤ (n : K)) : roundHalfEven y ≤ n := by
  unfold roundHalfEven
  rcases eq_or_lt_of_le h with heq | hlt
  · have hfl : ⌊y⌋ = n := by rw [heq, Int.floor_intCast]
    rw [hfl, heq, if_pos (by simp)]
  · have hf : ⌊y⌋ < n := Int.floor_lt.mpr hlt
    split_ifs <;> omega

/-- Evaluation of `roundMag` from the binade of `m` and the rounded significand. -/
lemma roundMag_eval (neg : Bool) (m : K) (e n : ℤ)
    (h1 : (2 : K) ^ e ≤ m) (h2 : m < (2 : K) ^ (e + 1))
    (hn : roundHalfEven (m / (2 : K) ^ (max e (-1022) - 52)) = n) :
    roundMag neg m =
      if (2 : ℚ) ^ (1024 : ℤ) ≤ (n : ℚ) * (2 : ℚ) ^ (max e (-1022) - 52) then Dbl.inf neg
      else Dbl.fin neg ((n : ℚ) * (2 : ℚ) ^ (max e (-1022) - 52)) := by
  unfold roundMag ulpExp
  rw [log_two_eq h1 h2, hn]

lemma roundMag_zero (neg : Bool) : roundMag neg (0 : K) = Dbl.fin neg 0 := by
  have h0 : roundHalfEven ((0 : K) / (2 : K) ^ ulpExp (0 : K)) = 0 := by
    rw [zero_div]
    have := @roundHalfEven_intCast K _ _ 0
    simpa using this
  unfold roundMag
  rw [h0]
  have hpos : (0 : ℚ) < (2 : ℚ) ^ (1024 : ℤ) := by positivity
  simp [not_le.mpr hpos]

/-- A number with a 53-bit significand `n` and an exponent `k` in range is
a binary64 number: rounding leaves it unchanged, or overflows. -/
lemma roundMag_normal (neg : Bool) (n : ℕ) (k : ℤ)
    (h1 : 2 ^ 52 ≤ n) (h2 : n < 2 ^ 53) (hk : -1074 ≤ k) :
    roundMag neg ((n : K) * (2 : K) ^ k) =
      if (2 : ℚ) ^ (1024 : ℤ) ≤ (n : ℚ) * (2 : ℚ) ^ k then Dbl.inf neg
      else Dbl.fin neg ((n : ℚ) * (2 : ℚ) ^ k) := by
  have hpk : (0 : K) < (2 : K) ^ k := by positivity
  have hk52 : (2 : K) ^ (k + 52) = (2 : K) ^ (52 : ℕ) * (2 : K) ^ k := by
    rw [zpow_add₀ (by norm_num : (2 : K) ≠ 0), mul_comm]
    norm_cast
  have hk53 : (2 : K) ^ (k + 52 + 1) = (2 : K) ^ (53 : ℕ) * (2 : K) ^ k := by
    rw [show k + 52 + 1 = k + 53 by ring, zpow_add₀ (by norm_num : (2 : K) ≠ 0), mul_comm]
    norm_cast
  have hn1 : ((2 : K) ^ (52 : ℕ)) ≤ (n : K) := by exact_mod_cast h1
  have hn2 : (n : K) < ((2 : K) ^ (53 : ℕ)) := by exact_mod_cast h2
  have hmax : max (k + 52) (-1022) - 52 = k := by
    rw [max_eq_left (by omega)]
    ring
  have key := roundMag_eval neg ((n : K) * (2 : K) ^ k) (k + 52) (n : ℤ)
    (by rw [hk52]; exact mul_le_mul_of_nonneg_right hn1 hpk.le)
    (by rw [hk53]; exact mul_lt_mul_of_pos_right hn2 hpk)
    (by
      rw [hmax, mul_div_assoc, div_self hpk.ne', mul_one]
      have := @roundHalfEven_intCast K _ _ (n : ℤ)
      simpa using this)
  rw [hmax] at key
  simpa using key

/-- Evaluation of `roundMag` at a binary64 number given by its significand and
exponent. -/
lemma roundMag_of_eq (neg : Bool) (m : K) (q : ℚ) (n : ℕ) (k : ℤ)
    (h1 : 2 ^ 52 ≤ n) (h2 : n < 2 ^ 53) (hk : -1074 ≤ k) (hk2 : k ≤ 971)
    (hm : m = (n : K) * (2 : K) ^ k) (hq : q = (n : ℚ) * (2 : ℚ) ^ k) :
    roundMag neg m = Dbl.fin neg q := by
  rw [hm, hq, roundMag_normal neg n k h1 h2 hk, if_neg]
  rw [not_le]
  have hn : (n : ℚ) < (2 : ℚ) ^ (53 : ℤ) := by exact_mod_cast h2
  have hp : (2 : ℚ) ^ k ≤ (2 : ℚ) ^ (971 : ℤ) := zpow_le_zpow_right₀ (by norm_num) hk2
  have hpos : (0 : ℚ) < (2 : ℚ) ^ k := by positivity
  calc (n : ℚ) * (2 : ℚ) ^ k < (2 : ℚ) ^ (53 : ℤ) * (2 : ℚ) ^ k :=
        mul_lt_mul_of_pos_right hn hpos
    _ ≤ (2 : ℚ) ^ (53 : ℤ) * (2 : ℚ) ^ (971 : ℤ) :=
        mul_le_mul_of_nonneg_left hp (by positivity)
    _ = (2 : ℚ) ^ (1024 : ℤ) := by
        rw [← zpow_add₀ (by norm_num : (2 : ℚ) ≠ 0)]
        norm_num

/-- A product that reaches `2 ^ 1024` overflows to an infinity. -/
lemma roundMag_overflow (neg : Bool) (m : K) (n : ℕ) (k : ℤ)
    (h1 : 2 ^ 52 ≤ n) (h2 : n < 2 ^ 53) (hk : 972 ≤ k)
    (hm : m = (n : K) * (2 : K) ^ k) :
    roundMag neg m = Dbl.inf neg := by
  rw [hm, roundMag_normal neg n k h1 h2 (by omega), if_pos]
  have hn : (2 : ℚ) ^ (52 : ℤ) ≤ (n : ℚ) := by exact_mod_cast h1
  have hp : (2 : ℚ) ^ (972 : ℤ) ≤ (2 : ℚ) ^ k := zpow_le_zpow_right₀ (by norm_num) hk
  calc (2 : ℚ) ^ (1024 : ℤ) = (2 : ℚ) ^ (52 : ℤ) * (2 : ℚ) ^ (972 : ℤ) := by
        rw [← zpow_add₀ (by norm_num : (2 : ℚ) ≠ 0)]
        norm_num
    _ ≤ (n : ℚ) * (2 : ℚ) ^ (972 : ℤ) := mul_le_mul_of_nonneg_right hn (by positivity)
    _ ≤ (n : ℚ) * (2 : ℚ) ^ k := mul_le_mul_of_nonneg_left hp (by positivity)

end RoundingLemmas


/-! ## Binary64 arithmetic: constants and sample evaluations -/

lemma roundTo_zero : roundTo (0 : ℚ) = Dbl.fin false 0 := by
  simp [roundTo, roundMag_zero]

lemma ofNat_zero : Dbl.ofNat 0 = Dbl.fin false 0 := by
  simp [Dbl.ofNat, roundTo_zero]

/-- Rounding of a positive binary64 number given by its significand and exponent. -/
lemma roundTo_of_eq (x q : ℚ) (n : ℕ) (k : ℤ)
    (h1 : 2 ^ 52 ≤ n) (h2 : n < 2 ^ 53) (hk : -1074 ≤ k) (hk2 : k ≤ 971)
    (hx : x = (n : ℚ) * (2 : ℚ) ^ k) (hq : q = (n : ℚ) * (2 : ℚ) ^ k) :
    roundTo x = Dbl.fin false q := by
  have hpos : 0 < x := by
    rw [hx]
    have : (0 : ℚ) < (n : ℚ) := by
      have : 0 < n := lt_of_lt_of_le (by norm_num) h1
      exact_mod_cast this
    positivity
  unfold roundTo
  rw [abs_of_pos hpos, decide_eq_false (not_lt.mpr hpos.le)]
  exact roundMag_of_eq false x q n k h1 h2 hk hk2 hx hq

lemma ofNat_one : Dbl.ofNat 1 = Dbl.fin false 1 := by
  unfold Dbl.ofNat
  exact roundTo_of_eq _ _ (2 ^ 52) (-52) (by norm_num) (by norm_num) (by norm_num)
    (by norm_num) (by norm_num) (by norm_num)

lemma ofNat_two : Dbl.ofNat 2 = Dbl.fin false 2 := by
  unfold Dbl.ofNat
  exact roundTo_of_eq _ _ (2 ^ 52) (-51) (by norm_num) (by norm_num) (by norm_num)
    (by norm_num) (by norm_num) (by norm_num)

lemma mul_zero_zero : Dbl.mul (Dbl.fin false 0) (Dbl.fin false 0) = Dbl.fin false 0 := by
  simp [Dbl.mul, roundMag_zero]

lemma div_zero_one : Dbl.div (Dbl.fin false 0) (Dbl.fin false 1) = Dbl.fin false 0 := by
  simp [Dbl.div, roundMag_zero]

lemma lt_zero_of_pos {q : ℚ} (hq : 0 < q) :
    Dbl.lt (Dbl.fin false 0) (Dbl.fin false q) = true := by
  simp only [Dbl.lt, sval, Bool.false_eq_true, if_false, decide_eq_true_eq]
  exact hq

lemma le_zero_of_pos {q : ℚ} (hq : 0 < q) :
    Dbl.le (Dbl.fin false q) (Dbl.fin false 0) = false := by
  simp only [Dbl.le, sval, Bool.false_eq_true, if_false, decide_eq_false_iff_not, not_le]
  exact hq

lemma eq_zero_one : Dbl.eq (Dbl.fin false 0) (Dbl.fin false 1) = false := by
  simp [Dbl.eq, sval]


lemma floor_natCast (n : ℕ) : Dbl.floor (Dbl.fin false (n : ℚ)) = Dbl.fin false (n : ℚ) := by
  have hfl : ⌊((n : ℚ))⌋ = (n : ℤ) := Int.floor_natCast n
  simp only [Dbl.floor, sval, Bool.false_eq_true, if_false, hfl]
  congr 1
  · split_ifs with h
    · rfl
    · simp
  · simp

lemma ceil_natCast (n : ℕ) : Dbl.ceil (Dbl.fin false (n : ℚ)) = Dbl.fin false (n : ℚ) := by
  have hfl : ⌈((n : ℚ))⌉ = (n : ℤ) := Int.ceil_natCast n
  simp only [Dbl.ceil, sval, Bool.false_eq_true, if_false, hfl]
  congr 1
  · split_ifs with h
    · rfl
    · simp
  · simp

/-- On an even natural number `fmod(·, 2)` is zero. -/
lemma fmod_two_mul (n : ℕ) :
    Dbl.fmod (Dbl.fin false ((2 * n : ℕ) : ℚ)) (Dbl.fin false 2) = Dbl.fin false 0 := by
  have h2 : (2 : ℚ) ≠ 0 := by norm_num
  have hq : |(((2 * n : ℕ) : ℚ))| / |(2 : ℚ)| = ((n : ℤ) : ℚ) := by
    rw [abs_of_nonneg (by positivity), abs_of_pos (by norm_num)]
    push_cast
    field_simp
  simp only [Dbl.fmod, if_neg h2, hq, Int.floor_intCast]
  congr 1
  rw [abs_of_nonneg (by positivity), abs_of_pos (by norm_num : (0 : ℚ) < 2)]
  push_cast
  ring

/-- Addition of two positive finite numbers whose exact sum is a binary64 number. -/
lemma add_pos_exact (a b q : ℚ) (n : ℕ) (k : ℤ) (ha : 0 ≤ a) (hb : 0 < b)
    (h1 : 2 ^ 52 ≤ n) (h2 : n < 2 ^ 53) (hk : -1074 ≤ k) (hk2 : k ≤ 971)
    (hs : a + b = (n : ℚ) * (2 : ℚ) ^ k) (hq : q = (n : ℚ) * (2 : ℚ) ^ k) :
    Dbl.add (Dbl.fin false a) (Dbl.fin false b) = Dbl.fin false q := by
  have hne : a + b ≠ 0 := by positivity
  simp only [Dbl.add, sval, Bool.false_eq_true, if_false, if_neg hne]
  exact roundTo_of_eq _ _ n k h1 h2 hk hk2 hs hq

/-- The tie `2 ^ 53 + 1` rounds to the even neighbour `2 ^ 53`. -/
lemma add_two_pow_53_one :
    Dbl.add (Dbl.fin false 9007199254740992) (Dbl.fin false 1)
      = Dbl.fin false 9007199254740992 := by
  have hne : (9007199254740992 : ℚ) + 1 ≠ 0 := by norm_num
  have hpos : (0 : ℚ) < 9007199254740992 + 1 := by norm_num
  simp only [Dbl.add, sval, Bool.false_eq_true, if_false, if_neg hne, roundTo,
    abs_of_pos hpos, decide_eq_false (not_lt.mpr hpos.le)]
  have hr : roundHalfEven ((9007199254740992 + 1 : ℚ) / (2 : ℚ) ^ (max (53 : ℤ) (-1022) - 52))
      = 4503599627370496 := by
    have e : (9007199254740992 + 1 : ℚ) / (2 : ℚ) ^ (max (53 : ℤ) (-1022) - 52)
        = ((4503599627370496 : ℤ) : ℚ) + 1 / 2 := by norm_num
    rw [e]
    exact roundHalfEven_even_add_half (by norm_num)
  rw [roundMag_eval false _ 53 4503599627370496 (by norm_num) (by norm_num) hr]
  norm_num

lemma div_one_of_normal (q : ℚ) (n : ℕ) (k : ℤ)
    (h1 : 2 ^ 52 ≤ n) (h2 : n < 2 ^ 53) (hk : -1074 ≤ k) (hk2 : k ≤ 971)
    (hq : q = (n : ℚ) * (2 : ℚ) ^ k) :
    Dbl.div (Dbl.fin false q) (Dbl.fin false 1) = Dbl.fin false q := by
  simp only [Dbl.div, if_neg (one_ne_zero : (1 : ℚ) ≠ 0), Bool.xor_false, div_one]
  exact roundMag_of_eq false q q n k h1 h2 hk hk2 hq hq

lemma add_zero_one : Dbl.add (Dbl.fin false 0) (Dbl.fin false 1) = Dbl.fin false 1 :=
  add_pos_exact 0 1 1 (2 ^ 52) (-52) le_rfl one_pos (by norm_num) (by norm_num) (by norm_num)
    (by norm_num) (by norm_num) (by norm_num)

/-- The value of `checker(1)` at `(2 ^ 53, 0)` in binary64 is 0: the sum
`2 ^ 53 + 1` is not a binary64 number and rounds to `2 ^ 53`. -/
lemma checker_one_two_pow_53 :
    checker (Dbl.fin false 1) (Point.mk (Dbl.fin false 9007199254740992) (Dbl.fin false 0))
      = Dbl.fin false 0 := by
  have hdx : Dbl.div (Dbl.fin false 9007199254740992) (Dbl.fin false 1)
      = Dbl.fin false 9007199254740992 :=
    div_one_of_normal _ (2 ^ 52) 1 (by norm_num) (by norm_num) (by norm_num) (by norm_num)
      (by norm_num)
  have hfx : Dbl.floor (Dbl.fin false 9007199254740992) = Dbl.fin false 9007199254740992 := by
    have := floor_natCast 9007199254740992
    simpa using this
  have hf0 : Dbl.floor (Dbl.fin false 0) = Dbl.fin false 0 := by
    have := floor_natCast 0
    simpa using this
  have hmod : Dbl.fmod (Dbl.fin false 9007199254740992) (Dbl.fin false 2) = Dbl.fin false 0 := by
    have := fmod_two_mul 4503599627370496
    simpa using this
  unfold checker
  simp only [ofNat_zero, ofNat_one, ofNat_two]
  rw [le_zero_of_pos one_pos, hdx, hfx, div_zero_one, hf0, add_zero_one]
  simp only [Dbl.abs, Bool.false_eq_true, if_false]
  rw [add_two_pow_53_one, hmod]

/-- The value of `checker(1)` at `(2 ^ 53 - 1, 0)` in binary64 is 0. -/
lemma checker_one_pred_two_pow_53 :
    checker (Dbl.fin false 1) (Point.mk (Dbl.fin false 9007199254740991) (Dbl.fin false 0))
      = Dbl.fin false 0 := by
  have hdx : Dbl.div (Dbl.fin false 9007199254740991) (Dbl.fin false 1)
      = Dbl.fin false 9007199254740991 :=
    div_one_of_normal _ 9007199254740991 0 (by norm_num) (by norm_num) (by norm_num)
      (by norm_num) (by norm_num)
  have hfx : Dbl.floor (Dbl.fin false 9007199254740991) = Dbl.fin false 9007199254740991 := by
    have := floor_natCast 9007199254740991
    simpa using this
  have hf0 : Dbl.floor (Dbl.fin false 0) = Dbl.fin false 0 := by
    have := floor_natCast 0
    simpa using this
  have hadd : Dbl.add (Dbl.fin false 9007199254740991) (Dbl.fin false 1)
      = Dbl.fin false 9007199254740992 :=
    add_pos_exact _ _ _ (2 ^ 52) 1 (by norm_num) one_pos (by norm_num) (by norm_num)
      (by norm_num) (by norm_num) (by norm_num) (by norm_num)
  have hmod : Dbl.fmod (Dbl.fin false 9007199254740992) (Dbl.fin false 2) = Dbl.fin false 0 := by
    have := fmod_two_mul 4503599627370496
    simpa using this
  unfold checker
  simp only [ofNat_zero, ofNat_one, ofNat_two]
  rw [le_zero_of_pos one_pos, hdx, hfx, div_zero_one, hf0, add_zero_one]
  simp only [Dbl.abs, Bool.false_eq_true, if_false]
  rw [hadd, hmod]

lemma pred_two_pow_53_add_one :
    Dbl.add (Dbl.fin false 9007199254740991) (Dbl.fin false 1) = Dbl.fin false 9007199254740992 :=
  add_pos_exact _ _ _ (2 ^ 52) 1 (by norm_num) one_pos (by norm_num) (by norm_num)
    (by norm_num) (by norm_num) (by norm_num) (by norm_num)

lemma one_sub_zero : Dbl.sub (Dbl.fin false 1) (Dbl.fin false 0) = Dbl.fin false 1 := by
  have hne : (1 : ℚ) + -0 ≠ 0 := by norm_num
  simp only [Dbl.sub, Dbl.neg, Dbl.add, sval, Bool.false_eq_true, if_false, Bool.not_false,
    if_true, if_neg hne]
  exact roundTo_of_eq _ _ (2 ^ 52) (-52) (by norm_num) (by norm_num) (by norm_num)
    (by norm_num) (by norm_num) (by norm_num)

/-- The product `2 ^ 600 * 2 ^ 600` overflows. -/
lemma mul_huge_self :
    Dbl.mul (Dbl.fin false ((2 : ℚ) ^ (600 : ℤ))) (Dbl.fin false ((2 : ℚ) ^ (600 : ℤ)))
      = Dbl.inf false := by
  simp only [Dbl.mul, Bool.xor_false]
  refine roundMag_overflow false _ (2 ^ 52) 1148 (by norm_num) (by norm_num) (by norm_num) ?_
  rw [← zpow_add₀ (by norm_num : (2 : ℚ) ≠ 0)]
  have : ((2 ^ 52 : ℕ) : ℚ) = (2 : ℚ) ^ (52 : ℤ) := by norm_num
  rw [this, ← zpow_add₀ (by norm_num : (2 : ℚ) ≠ 0)]
  norm_num

lemma mul_inf_tiny :
    Dbl.mul (Dbl.inf false) (Dbl.fin false ((2 : ℚ) ^ (-600 : ℤ))) = Dbl.inf false := by
  have hne : (2 : ℚ) ^ (-600 : ℤ) ≠ 0 := by positivity
  simp only [Dbl.mul, if_neg hne, Bool.xor_false]

lemma mul_huge_tiny :
    Dbl.mul (Dbl.fin false ((2 : ℚ) ^ (600 : ℤ))) (Dbl.fin false ((2 : ℚ) ^ (-600 : ℤ)))
      = Dbl.fin false 1 := by
  simp only [Dbl.mul, Bool.xor_false]
  refine roundMag_of_eq false _ 1 (2 ^ 52) (-52) (by norm_num) (by norm_num) (by norm_num)
    (by norm_num) ?_ (by norm_num)
  rw [← zpow_add₀ (by norm_num : (2 : ℚ) ≠ 0)]
  norm_num

lemma mul_huge_one :
    Dbl.mul (Dbl.fin false ((2 : ℚ) ^ (600 : ℤ))) (Dbl.fin false 1)
      = Dbl.fin false ((2 : ℚ) ^ (600 : ℤ)) := by
  have e : (2 : ℚ) ^ (600 : ℤ) = ((2 ^ 52 : ℕ) : ℚ) * (2 : ℚ) ^ (548 : ℤ) := by
    have : ((2 ^ 52 : ℕ) : ℚ) = (2 : ℚ) ^ (52 : ℤ) := by norm_num
    rw [this, ← zpow_add₀ (by norm_num : (2 : ℚ) ≠ 0)]
    norm_num
  simp only [Dbl.mul, Bool.xor_false, mul_one]
  exact roundMag_of_eq false _ _ (2 ^ 52) 548 (by norm_num) (by norm_num) (by norm_num)
    (by norm_num) e e


section RangeLemmas

variable {K : Type} [LinearOrderedField K] [FloorRing K]

/-- Rounding keeps a magnitude of the normal range `[2 ^ (-1022), 2 ^ 1023]` finite
and within that range. -/
lemma roundMag_normal_range (neg : Bool) (x : K)
    (h1 : (2 : K) ^ (-1022 : ℤ) ≤ x) (h2 : x ≤ (2 : K) ^ (1023 : ℤ)) :
    ∃ q : ℚ, roundMag neg x = Dbl.fin neg q
      ∧ (2 : ℚ) ^ (-1022 : ℤ) ≤ q ∧ q ≤ (2 : ℚ) ^ (1023 : ℤ) := by
  have hx : 0 < x := lt_of_lt_of_le (by positivity) h1
  have two_ne : (2 : K) ≠ 0 := by norm_num
  have two_neQ : (2 : ℚ) ≠ 0 := by norm_num
  have he1 : (2 : K) ^ Int.log 2 x ≤ x := by
    have := Int.zpow_log_le_self (by norm_num : 1 < 2) hx
    simpa using this
  have hlo : -1022 ≤ Int.log 2 x :=
    (Int.zpow_le_iff_le_log (by norm_num) hx).mp (by simpa using h1)
  have hhi : Int.log 2 x < 1024 := by
    refine (Int.lt_zpow_iff_log_lt (by norm_num) hx).mp ?_
    have : (2 : K) ^ (1023 : ℤ) < (2 : K) ^ (1024 : ℤ) :=
      zpow_lt_zpow_right₀ (by norm_num) (by norm_num)
    simpa using lt_of_le_of_lt h2 this
  obtain ⟨e, he⟩ : ∃ e : ℤ, Int.log 2 x = e := ⟨_, rfl⟩
  rw [he] at he1 hlo hhi
  have hulp : ulpExp x = e - 52 := by
    unfold ulpExp
    rw [he, max_eq_left hlo]
  have hpk : (0 : K) < (2 : K) ^ (e - 52) := by positivity
  have hpkQ : (0 : ℚ) < (2 : ℚ) ^ (e - 52) := by positivity
  -- the rounded significand lies between `2 ^ 52` and `2 ^ (1075 - e)`
  have hj : 0 ≤ 1075 - e := by omega
  obtain ⟨j, hj'⟩ : ∃ j : ℕ, (j : ℤ) = 1075 - e := ⟨(1075 - e).toNat, Int.toNat_of_nonneg hj⟩
  have hlow : (((2 ^ 52 : ℕ) : ℤ) : K) ≤ x / (2 : K) ^ (e - 52) := by
    rw [le_div_iff₀ hpk]
    have : (((2 ^ 52 : ℕ) : ℤ) : K) * (2 : K) ^ (e - 52) = (2 : K) ^ e := by
      have h52 : (((2 ^ 52 : ℕ) : ℤ) : K) = (2 : K) ^ (52 : ℤ) := by norm_num
      rw [h52, ← zpow_add₀ two_ne]
      congr 1
      ring
    rw [this]
    exact he1
  have hupp : x / (2 : K) ^ (e - 52) ≤ (((2 ^ j : ℕ) : ℤ) : K) := by
    rw [div_le_iff₀ hpk]
    have : (((2 ^ j : ℕ) : ℤ) : K) * (2 : K) ^ (e - 52) = (2 : K) ^ (1023 : ℤ) := by
      have hjK : (((2 ^ j : ℕ) : ℤ) : K) = (2 : K) ^ (j : ℤ) := by
        push_cast
        rw [zpow_natCast]
      rw [hjK, hj', ← zpow_add₀ two_ne]
      congr 1
      ring
    rw [this]
    exact h2
  have hn1 := le_roundHalfEven hlow
  have hn2 := roundHalfEven_le hupp
  obtain ⟨n, hn⟩ : ∃ n : ℤ, roundHalfEven (x / (2 : K) ^ (e - 52)) = n := ⟨_, rfl⟩
  rw [hn] at hn1 hn2
  have hq1 : (2 : ℚ) ^ (-1022 : ℤ) ≤ (n : ℚ) * (2 : ℚ) ^ (e - 52) := by
    have hnQ : ((2 : ℚ) ^ (52 : ℤ)) ≤ (n : ℚ) := by
      have : (((2 ^ 52 : ℕ) : ℤ) : ℚ) ≤ (n : ℚ) := by exact_mod_cast hn1
      have h52 : (((2 ^ 52 : ℕ) : ℤ) : ℚ) = (2 : ℚ) ^ (52 : ℤ) := by norm_num
      rwa [h52] at this
    calc (2 : ℚ) ^ (-1022 : ℤ) ≤ (2 : ℚ) ^ e := zpow_le_zpow_right₀ (by norm_num) hlo
      _ = (2 : ℚ) ^ (52 : ℤ) * (2 : ℚ) ^ (e - 52) := by
          rw [← zpow_add₀ two_neQ]
          congr 1
          ring
      _ ≤ (n : ℚ) * (2 : ℚ) ^ (e - 52) := mul_le_mul_of_nonneg_right hnQ hpkQ.le
  have hq2 : (n : ℚ) * (2 : ℚ) ^ (e - 52) ≤ (2 : ℚ) ^ (1023 : ℤ) := by
    have hnQ : (n : ℚ) ≤ (2 : ℚ) ^ (j : ℤ) := by
      have : (n : ℚ) ≤ (((2 ^ j : ℕ) : ℤ) : ℚ) := by exact_mod_cast hn2
      have hjQ : (((2 ^ j : ℕ) : ℤ) : ℚ) = (2 : ℚ) ^ (j : ℤ) := by
        push_cast
        rw [zpow_natCast]
      rwa [hjQ] at this
    calc (n : ℚ) * (2 : ℚ) ^ (e - 52) ≤ (2 : ℚ) ^ (j : ℤ) * (2 : ℚ) ^ (e - 52) :=
          mul_le_mul_of_nonneg_right hnQ hpkQ.le
      _ = (2 : ℚ) ^ (1023 : ℤ) := by
          rw [hj', ← zpow_add₀ two_neQ]
          congr 1
          ring
  refine ⟨(n : ℚ) * (2 : ℚ) ^ (e - 52), ?_, hq1, hq2⟩
  unfold roundMag
  rw [hulp, hn, if_neg]
  rw [not_le]
  exact lt_of_le_of_lt hq2 (zpow_lt_zpow_right₀ (by norm_num) (by norm_num))

end RangeLemmas


lemma ceil_of_nat (q : ℚ) (n : ℕ) (h : q = (n : ℚ)) :
    Dbl.ceil (Dbl.fin false q) = Dbl.fin false q := by
  rw [h]
  exact ceil_natCast n

lemma fmod_two_of_even (q : ℚ) (n : ℕ) (h : q = ((2 * n : ℕ) : ℚ)) :
    Dbl.fmod (Dbl.fin false q) (Dbl.fin false 2) = Dbl.fin false 0 := by
  rw [h]
  exact fmod_two_mul n

lemma eq_zero_of_pos {q : ℚ} (hq : 0 < q) :
    Dbl.eq (Dbl.fin false q) (Dbl.fin false 0) = false := by
  simp only [Dbl.eq, sval, Bool.false_eq_true, if_false, decide_eq_false_iff_not]
  exact hq.ne'

/-- The value of `scale(rings(1), Point(4, 4))` at `(2 ^ 512, 0)` in binary64 is 0. -/
lemma scale_rings_one_huge :
    scale (rings (Dbl.fin false 1)) (Point.mk (Dbl.fin false 4) (Dbl.fin false 4))
        (Point.mk (Dbl.fin false ((2 : ℚ) ^ (512 : ℤ))) (Dbl.fin false 0))
      = Dbl.fin false 0 := by
  have h510 : (0 : ℚ) < (2 : ℚ) ^ (510 : ℤ) := by positivity
  have e510 : (2 : ℚ) ^ (510 : ℤ) = ((2 ^ 52 : ℕ) : ℚ) * (2 : ℚ) ^ (458 : ℤ) := by
    have : ((2 ^ 52 : ℕ) : ℚ) = (2 : ℚ) ^ (52 : ℤ) := by norm_num
    rw [this, ← zpow_add₀ (by norm_num : (2 : ℚ) ≠ 0)]
    norm_num
  have e1020 : (2 : ℚ) ^ (1020 : ℤ) = ((2 ^ 52 : ℕ) : ℚ) * (2 : ℚ) ^ (968 : ℤ) := by
    have : ((2 ^ 52 : ℕ) : ℚ) = (2 : ℚ) ^ (52 : ℤ) := by norm_num
    rw [this, ← zpow_add₀ (by norm_num : (2 : ℚ) ≠ 0)]
    norm_num
  have hdx : Dbl.div (Dbl.fin false ((2 : ℚ) ^ (512 : ℤ))) (Dbl.fin false 4)
      = Dbl.fin false ((2 : ℚ) ^ (510 : ℤ)) := by
    simp only [Dbl.div, if_neg (by norm_num : (4 : ℚ) ≠ 0), Bool.xor_false]
    refine roundMag_of_eq false _ _ (2 ^ 52) 458 (by norm_num) (by norm_num) (by norm_num)
      (by norm_num) ?_ e510
    rw [← e510, show (4 : ℚ) = (2 : ℚ) ^ (2 : ℤ) by norm_num,
      ← zpow_sub₀ (by norm_num : (2 : ℚ) ≠ 0)]
    norm_num
  have hdy : Dbl.div (Dbl.fin false 0) (Dbl.fin false 4) = Dbl.fin false 0 := by
    simp [Dbl.div, roundMag_zero]
  have hmx : Dbl.mul (Dbl.fin false ((2 : ℚ) ^ (510 : ℤ))) (Dbl.fin false ((2 : ℚ) ^ (510 : ℤ)))
      = Dbl.fin false ((2 : ℚ) ^ (1020 : ℤ)) := by
    simp only [Dbl.mul, Bool.xor_false]
    refine roundMag_of_eq false _ _ (2 ^ 52) 968 (by norm_num) (by norm_num) (by norm_num)
      (by norm_num) ?_ e1020
    rw [← e1020, ← zpow_add₀ (by norm_num : (2 : ℚ) ≠ 0)]
    norm_num
  have hadd : Dbl.add (Dbl.fin false ((2 : ℚ) ^ (1020 : ℤ))) (Dbl.fin false 0)
      = Dbl.fin false ((2 : ℚ) ^ (1020 : ℤ)) := by
    have hne : (2 : ℚ) ^ (1020 : ℤ) + 0 ≠ 0 := by positivity
    simp only [Dbl.add, sval, Bool.false_eq_true, if_false, if_neg hne]
    refine roundTo_of_eq _ _ (2 ^ 52) 968 (by norm_num) (by norm_num) (by norm_num)
      (by norm_num) ?_ e1020
    rw [add_zero, e1020]
  have hsqrt : Dbl.sqrt (Dbl.fin false ((2 : ℚ) ^ (1020 : ℤ)))
      = Dbl.fin false ((2 : ℚ) ^ (510 : ℤ)) := by
    have hne : (2 : ℚ) ^ (1020 : ℤ) ≠ 0 := by positivity
    have hs : Real.sqrt (((2 : ℚ) ^ (1020 : ℤ) : ℚ) : ℝ) = (2 : ℝ) ^ (510 : ℤ) := by
      have : (((2 : ℚ) ^ (1020 : ℤ) : ℚ) : ℝ) = (2 : ℝ) ^ (510 : ℤ) * (2 : ℝ) ^ (510 : ℤ) := by
        push_cast
        rw [← zpow_add₀ (by norm_num : (2 : ℝ) ≠ 0)]
        norm_num
      rw [this]
      exact Real.sqrt_mul_self (by positivity)
    simp only [Dbl.sqrt, if_neg hne, Bool.false_eq_true, if_false, hs]
    refine roundMag_of_eq false _ _ (2 ^ 52) 458 (by norm_num) (by norm_num) (by norm_num)
      (by norm_num) ?_ e510
    have : ((2 ^ 52 : ℕ) : ℝ) = (2 : ℝ) ^ (52 : ℤ) := by norm_num
    rw [this, ← zpow_add₀ (by norm_num : (2 : ℝ) ≠ 0)]
    norm_num
  have hd1 : Dbl.div (Dbl.fin false ((2 : ℚ) ^ (510 : ℤ))) (Dbl.fin false 1)
      = Dbl.fin false ((2 : ℚ) ^ (510 : ℤ)) :=
    div_one_of_normal _ (2 ^ 52) 458 (by norm_num) (by norm_num) (by norm_num) (by norm_num) e510
  have hceil : Dbl.ceil (Dbl.fin false ((2 : ℚ) ^ (510 : ℤ)))
      = Dbl.fin false ((2 : ℚ) ^ (510 : ℤ)) :=
    ceil_of_nat _ (2 ^ 510) (by norm_num)
  have hmod : Dbl.fmod (Dbl.fin false ((2 : ℚ) ^ (510 : ℤ))) (Dbl.fin false 2)
      = Dbl.fin false 0 :=
    fmod_two_of_even _ (2 ^ 509) (by norm_num)
  unfold scale rings
  simp only [ofNat_zero, ofNat_one, ofNat_two]
  rw [hdx, hdy, le_zero_of_pos one_pos, eq_zero_of_pos h510, mul_zero_zero, hmx, hadd, hsqrt,
    hd1, hceil, hmod]
  rfl

/-- The value of `rings(4)` at `(2 ^ 512, 0)` in binary64 is NaN: `p.x * p.x`
overflows, and `fmod` of an infinite value is NaN. -/
lemma rings_four_huge :
    rings (Dbl.fin false 4) (Point.mk (Dbl.fin false ((2 : ℚ) ^ (512 : ℤ))) (Dbl.fin false 0))
      = Dbl.nan := by
  have h512 : (0 : ℚ) < (2 : ℚ) ^ (512 : ℤ) := by positivity
  have hmx : Dbl.mul (Dbl.fin false ((2 : ℚ) ^ (512 : ℤ))) (Dbl.fin false ((2 : ℚ) ^ (512 : ℤ)))
      = Dbl.inf false := by
    simp only [Dbl.mul, Bool.xor_false]
    refine roundMag_overflow false _ (2 ^ 52) 972 (by norm_num) (by norm_num) (by norm_num) ?_
    have : ((2 ^ 52 : ℕ) : ℚ) = (2 : ℚ) ^ (52 : ℤ) := by norm_num
    rw [this, ← zpow_add₀ (by norm_num : (2 : ℚ) ≠ 0), ← zpow_add₀ (by norm_num : (2 : ℚ) ≠ 0)]
    norm_num
  unfold rings
  simp only [ofNat_zero, ofNat_one, ofNat_two]
  rw [le_zero_of_pos (by norm_num : (0 : ℚ) < 4), eq_zero_of_pos h512, mul_zero_zero, hmx]
  rfl


/-! ## Binary64 arithmetic: guards, signs and repeated rounding -/

/-- A number above zero fails the guard `s <= 0`. -/
lemma le_zero_false_of_lt (s : Dbl) (h : Dbl.lt (Dbl.fin false 0) s = true) :
    Dbl.le s (Dbl.fin false 0) = false := by
  cases s with
  | nan => rfl
  | inf b =>
    cases b
    · rfl
    · simp [Dbl.lt] at h
  | fin b m =>
    simp only [Dbl.lt, decide_eq_true_eq] at h
    simp only [Dbl.le, decide_eq_false_iff_not, not_le]
    exact h

section SignLemmas

variable {K : Type} [LinearOrderedField K] [FloorRing K]

end SignLemmas

section Idempotence

variable {K : Type} [LinearOrderedField K] [FloorRing K]

/-- A subnormal number, a multiple of `2 ^ (-1074)` below `2 ^ (-1022)`, is a
binary64 number. -/
lemma roundMag_subnormal (neg : Bool) (n : ℕ) (hn0 : 0 < n) (hn : n < 2 ^ 52) :
    roundMag neg ((n : K) * (2 : K) ^ (-1074 : ℤ))
      = Dbl.fin neg ((n : ℚ) * (2 : ℚ) ^ (-1074 : ℤ)) := by
  have two_ne : (2 : K) ≠ 0 := by norm_num
  have hp : (0 : K) < (2 : K) ^ (-1074 : ℤ) := by positivity
  have hnK : (0 : K) < (n : K) := by exact_mod_cast hn0
  have hm : (0 : K) < (n : K) * (2 : K) ^ (-1074 : ℤ) := mul_pos hnK hp
  have hlt : (n : K) * (2 : K) ^ (-1074 : ℤ) < (2 : K) ^ (-1022 : ℤ) := by
    have h52 : (n : K) < (2 : K) ^ (52 : ℤ) := by
      have : (n : K) < ((2 ^ 52 : ℕ) : K) := by exact_mod_cast hn
      have e : ((2 ^ 52 : ℕ) : K) = (2 : K) ^ (52 : ℤ) := by norm_num
      rwa [e] at this
    calc (n : K) * (2 : K) ^ (-1074 : ℤ) < (2 : K) ^ (52 : ℤ) * (2 : K) ^ (-1074 : ℤ) :=
          mul_lt_mul_of_pos_right h52 hp
      _ = (2 : K) ^ (-1022 : ℤ) := by
          rw [← zpow_add₀ two_ne]
          norm_num
  have hlog : Int.log 2 ((n : K) * (2 : K) ^ (-1074 : ℤ)) < -1022 :=
    (Int.lt_zpow_iff_log_lt (by norm_num) hm).mp (by simpa using hlt)
  have hulp : ulpExp ((n : K) * (2 : K) ^ (-1074 : ℤ)) = -1074 := by
    unfold ulpExp
    rw [max_eq_right (by omega)]
    norm_num
  have hr : roundHalfEven ((n : K) * (2 : K) ^ (-1074 : ℤ) / (2 : K) ^ (-1074 : ℤ)) = (n : ℤ) := by
    rw [mul_div_assoc, div_self hp.ne', mul_one]
    have := @roundHalfEven_intCast K _ _ (n : ℤ)
    simpa using this
  unfold roundMag
  rw [hulp, hr, if_neg]
  · simp
  · rw [not_le]
    have hnQ : (n : ℚ) < (2 : ℚ) ^ (52 : ℤ) := by
      have : (n : ℚ) < ((2 ^ 52 : ℕ) : ℚ) := by exact_mod_cast hn
      have e : ((2 ^ 52 : ℕ) : ℚ) = (2 : ℚ) ^ (52 : ℤ) := by norm_num
      rwa [e] at this
    have hpQ : (0 : ℚ) < (2 : ℚ) ^ (-1074 : ℤ) := by positivity
    calc ((n : ℤ) : ℚ) * (2 : ℚ) ^ (-1074 : ℤ) = (n : ℚ) * (2 : ℚ) ^ (-1074 : ℤ) := by simp
      _ < (2 : ℚ) ^ (52 : ℤ) * (2 : ℚ) ^ (-1074 : ℤ) := mul_lt_mul_of_pos_right hnQ hpQ
      _ = (2 : ℚ) ^ (-1022 : ℤ) := by
          rw [← zpow_add₀ (by norm_num : (2 : ℚ) ≠ 0)]
          norm_num
      _ < (2 : ℚ) ^ (1024 : ℤ) := zpow_lt_zpow_right₀ (by norm_num) (by norm_num)

/-- A non-positive multiple of `2 ^ (-52)` is left unchanged by `roundMag`. -/
lemma roundMag_nonpos_multiple (t : Bool) (n : ℤ) (hn : n ≤ 0) :
    roundMag t ((n : ℚ) * (2 : ℚ) ^ (-52 : ℤ))
      = Dbl.fin t ((n : ℚ) * (2 : ℚ) ^ (-52 : ℤ)) := by
  have hp : (0 : ℚ) < (2 : ℚ) ^ (-52 : ℤ) := by positivity
  have hq : (n : ℚ) * (2 : ℚ) ^ (-52 : ℤ) ≤ 0 :=
    mul_nonpos_of_nonpos_of_nonneg (by exact_mod_cast hn) hp.le
  have hulp : ulpExp ((n : ℚ) * (2 : ℚ) ^ (-52 : ℤ)) = -52 := by
    unfold ulpExp
    rw [Int.log_of_right_le_zero _ hq]
    norm_num
  have hr : roundHalfEven ((n : ℚ) * (2 : ℚ) ^ (-52 : ℤ) / (2 : ℚ) ^ (-52 : ℤ)) = n := by
    rw [mul_div_assoc, div_self hp.ne', mul_one]
    exact roundHalfEven_intCast n
  unfold roundMag
  rw [hulp, hr, if_neg]
  rw [not_le]
  exact lt_of_le_of_lt hq (by positivity)

/-- Rounding is idempotent: a finite result of `roundMag` is a binary64 number,
which `roundMag` leaves unchanged. -/
lemma roundMag_idem (neg t : Bool) (m : K) (q : ℚ) (h : roundMag neg m = Dbl.fin neg q) :
    roundMag t q = Dbl.fin t q := by
  have two_ne : (2 : K) ≠ 0 := by norm_num
  have two_neQ : (2 : ℚ) ≠ 0 := by norm_num
  unfold roundMag at h
  split_ifs at h with hov
  rw [not_le] at hov
  have hq : q = (roundHalfEven (m / (2 : K) ^ ulpExp m) : ℚ) * (2 : ℚ) ^ ulpExp m := by
    injection h with _ h2
    exact h2.symm
  have hpk : (0 : K) < (2 : K) ^ ulpExp m := by positivity
  rcases le_or_lt m 0 with hm | hm
  · -- a non-positive magnitude: the unit in the last place is `2 ^ (-52)`
    have hulp : ulpExp m = -52 := by
      unfold ulpExp
      rw [Int.log_of_right_le_zero _ hm]
      norm_num
    have hn : roundHalfEven (m / (2 : K) ^ ulpExp m) ≤ 0 := by
      apply roundHalfEven_le
      have : m / (2 : K) ^ ulpExp m ≤ 0 := div_nonpos_of_nonpos_of_nonneg hm hpk.le
      simpa using this
    rw [hulp] at hn
    rw [hq, hulp]
    exact roundMag_nonpos_multiple t _ hn
  · have he1 : (2 : K) ^ Int.log 2 m ≤ m := by
      have := Int.zpow_log_le_self (by norm_num : 1 < 2) hm
      simpa using this
    have he2 : m < (2 : K) ^ (Int.log 2 m + 1) := by
      have := Int.lt_zpow_succ_log_self (by norm_num : 1 < 2) m
      simpa using this
    have hn0 : 0 ≤ roundHalfEven (m / (2 : K) ^ ulpExp m) := by
      apply le_roundHalfEven
      have : (0 : K) ≤ m / (2 : K) ^ ulpExp m := div_nonneg hm.le hpk.le
      simpa using this
    obtain ⟨N, hN⟩ := Int.eq_ofNat_of_zero_le hn0
    have hqN : q = (N : ℚ) * (2 : ℚ) ^ ulpExp m := by
      rw [hq, hN]
      simp
    rw [hN] at hov
    have hovN : (N : ℚ) * (2 : ℚ) ^ ulpExp m < (2 : ℚ) ^ (1024 : ℤ) := by simpa using hov
    rcases le_or_lt (-1022) (Int.log 2 m) with he | he
    · -- normal range: the significand lies between `2 ^ 52` and `2 ^ 53`
      have hulp : ulpExp m = Int.log 2 m - 52 := by
        unfold ulpExp
        rw [max_eq_left he]
      have hklo : -1074 ≤ ulpExp m := by omega
      have hlow : (((2 ^ 52 : ℕ) : ℤ) : K) ≤ m / (2 : K) ^ ulpExp m := by
        rw [le_div_iff₀ hpk]
        have : (((2 ^ 52 : ℕ) : ℤ) : K) * (2 : K) ^ ulpExp m = (2 : K) ^ Int.log 2 m := by
          have h52 : (((2 ^ 52 : ℕ) : ℤ) : K) = (2 : K) ^ (52 : ℤ) := by norm_num
          rw [h52, hulp, ← zpow_add₀ two_ne]
          congr 1
          ring
        rw [this]
        exact he1
      have hupp : m / (2 : K) ^ ulpExp m ≤ (((2 ^ 53 : ℕ) : ℤ) : K) := by
        rw [div_le_iff₀ hpk]
        have : (((2 ^ 53 : ℕ) : ℤ) : K) * (2 : K) ^ ulpExp m = (2 : K) ^ (Int.log 2 m + 1) := by
          have h53 : (((2 ^ 53 : ℕ) : ℤ) : K) = (2 : K) ^ (53 : ℤ) := by norm_num
          rw [h53, hulp, ← zpow_add₀ two_ne]
          congr 1
          ring
        rw [this]
        exact he2.le
      have hN1 : 2 ^ 52 ≤ N := by
        have := le_roundHalfEven hlow
        rw [hN] at this
        exact_mod_cast this
      have hN2 : N ≤ 2 ^ 53 := by
        have := roundHalfEven_le hupp
        rw [hN] at this
        exact_mod_cast this
      rcases Nat.lt_or_ge N (2 ^ 53) with hlt | hge
      · rw [hqN, roundMag_normal t N (ulpExp m) hN1 hlt hklo, if_neg (not_le.mpr hovN)]
      · have hNeq : N = 2 ^ 53 := le_antisymm hN2 hge
        have hval : (N : ℚ) * (2 : ℚ) ^ ulpExp m
            = ((2 ^ 52 : ℕ) : ℚ) * (2 : ℚ) ^ (ulpExp m + 1) := by
          rw [hNeq, zpow_add₀ two_neQ]
          norm_num
          ring
        rw [hqN, hval]
        rw [hval] at hovN
        rw [roundMag_normal t (2 ^ 52) (ulpExp m + 1) le_rfl (by norm_num) (by omega),
          if_neg (not_le.mpr hovN)]
    · -- subnormal range: the unit in the last place is `2 ^ (-1074)`
      have hulp : ulpExp m = -1074 := by
        unfold ulpExp
        rw [max_eq_right (by omega)]
        norm_num
      have hupp : m / (2 : K) ^ ulpExp m ≤ (((2 ^ 52 : ℕ) : ℤ) : K) := by
        rw [div_le_iff₀ hpk, hulp]
        have : (((2 ^ 52 : ℕ) : ℤ) : K) * (2 : K) ^ (-1074 : ℤ) = (2 : K) ^ (-1022 : ℤ) := by
          have h52 : (((2 ^ 52 : ℕ) : ℤ) : K) = (2 : K) ^ (52 : ℤ) := by norm_num
          rw [h52, ← zpow_add₀ two_ne]
          norm_num
        rw [this]
        have : (2 : K) ^ (Int.log 2 m + 1) ≤ (2 : K) ^ (-1022 : ℤ) :=
          zpow_le_zpow_right₀ (by norm_num) (by omega)
        exact le_trans he2.le this
      have hN2 : N ≤ 2 ^ 52 := by
        have := roundHalfEven_le hupp
        rw [hN] at this
        exact_mod_cast this
      rw [hqN, hulp]
      rw [hulp] at hovN
      rcases Nat.eq_zero_or_pos N with h0 | hpos
      · rw [h0]
        simp only [Nat.cast_zero, zero_mul]
        exact roundMag_zero t
      · rcases Nat.lt_or_ge N (2 ^ 52) with hlt | hge
        · exact roundMag_subnormal t N hpos hlt
        · rw [roundMag_normal t N (-1074) hge (by omega) le_rfl, if_neg (not_le.mpr hovN)]

end Idempotence

/-- Dividing a quotient by one changes nothing: `(x / s) / 1 = x / s`. -/
lemma div_div_one (x s : Dbl) :
    Dbl.div (Dbl.div x s) (Dbl.fin false 1) = Dbl.div x s := by
  have h1 : (1 : ℚ) ≠ 0 := one_ne_zero
  cases x with
  | nan => cases s <;> rfl
  | inf a =>
    cases s with
    | nan => rfl
    | inf b => rfl
    | fin b n => simp [Dbl.div]
  | fin a m =>
    cases s with
    | nan => rfl
    | inf b => simp [Dbl.div, roundMag_zero]
    | fin b n =>
      simp only [Dbl.div]
      split_ifs with hn hm
      · rfl
      · simp [Dbl.div]
      · obtain ⟨r, hr⟩ : ∃ r, roundMag (xor a b) (m / n) = r := ⟨_, rfl⟩
        rw [hr]
        cases r with
        | nan => rfl
        | inf c => simp [Dbl.div]
        | fin c q =>
          have hc : c = xor a b := by
            unfold roundMag at hr
            split_ifs at hr
            injection hr with h _
            exact h.symm
          rw [hc] at hr
          simp only [Dbl.div, if_neg h1, Bool.xor_false, div_one]
          rw [hc]
          exact roundMag_idem (xor a b) (xor a b) (m / n) q hr


/-! ## Binary64: what holds of the generators -/

lemma le_one_zero : Dbl.le (Dbl.ofNat 1) (Dbl.ofNat 0) = false := by
  rw [ofNat_zero, ofNat_one]
  exact le_zero_of_pos one_pos

lemma scale_steps_one (s : Dbl) (hs : Dbl.lt (Dbl.fin false 0) s = true) (p : Point Dbl) :
    scale (steps (Dbl.ofNat 1)) (Point.mk s s) p = steps s p := by
  have hg : Dbl.le s (Dbl.ofNat 0) = false := by
    rw [ofNat_zero]
    exact le_zero_false_of_lt s hs
  simp only [scale, steps, le_one_zero, hg, Bool.false_eq_true, if_false]
  rw [ofNat_one, div_div_one]

lemma scale_checker_one (s : Dbl) (hs : Dbl.lt (Dbl.fin false 0) s = true) (p : Point Dbl) :
    scale (checker (Dbl.ofNat 1)) (Point.mk s s) p = checker s p := by
  have hg : Dbl.le s (Dbl.ofNat 0) = false := by
    rw [ofNat_zero]
    exact le_zero_false_of_lt s hs
  have h1 : ∀ x : Dbl, Dbl.div (Dbl.div x s) (Dbl.ofNat 1) = Dbl.div x s := by
    intro x
    rw [ofNat_one, div_div_one]
  simp only [scale, checker, le_one_zero, hg, Bool.false_eq_true, if_false, h1]

lemma scale_stripes_one (s : Dbl) (hs : Dbl.lt (Dbl.fin false 0) s = true) (p : Point Dbl) :
    scale (stripes (Dbl.ofNat 1)) (Point.mk s s) p = stripes s p := by
  have hg : Dbl.le s (Dbl.ofNat 0) = false := by
    rw [ofNat_zero]
    exact le_zero_false_of_lt s hs
  have h1 : ∀ x : Dbl, Dbl.div (Dbl.div x s) (Dbl.ofNat 1) = Dbl.div x s := by
    intro x
    rw [ofNat_one, div_div_one]
  simp only [scale, stripes, le_one_zero, hg, Bool.false_eq_true, if_false, h1]


/-! ## Binary64 arithmetic: evaluation at ordinary numbers -/

section EvalLemmas

variable {K : Type} [LinearOrderedField K] [FloorRing K]

/-- Evaluation of `roundMag` at a number of the normal range that is not a tie:
`n` is the integer nearest to `m / 2 ^ (e - 52)`. -/
lemma roundMag_eval_lt (neg : Bool) (m : K) (e n : ℤ) (q : ℚ)
    (he1 : -1022 ≤ e) (he2 : e ≤ 1022) (hn : n ≤ 2 ^ 53)
    (h1 : (2 : K) ^ e ≤ m) (h2 : m < (2 : K) ^ (e + 1))
    (h3 : (n : K) - 1 / 2 < m / (2 : K) ^ (e - 52))
    (h4 : m / (2 : K) ^ (e - 52) < (n : K) + 1 / 2)
    (hq : q = (n : ℚ) * (2 : ℚ) ^ (e - 52)) :
    roundMag neg m = Dbl.fin neg q := by
  have hmax : max e (-1022) - 52 = e - 52 := by rw [max_eq_left he1]
  have hr : roundHalfEven (m / (2 : K) ^ (max e (-1022) - 52)) = n := by
    rw [hmax]
    exact roundHalfEven_of_lt h3 h4
  rw [roundMag_eval neg m e n h1 h2 hr, hmax, if_neg, hq]
  rw [not_le]
  have hnQ : (n : ℚ) ≤ (2 : ℚ) ^ (53 : ℤ) := by
    have : (n : ℚ) ≤ ((2 ^ 53 : ℤ) : ℚ) := by exact_mod_cast hn
    have e53 : ((2 ^ 53 : ℤ) : ℚ) = (2 : ℚ) ^ (53 : ℤ) := by norm_num
    rwa [e53] at this
  have hp : (0 : ℚ) < (2 : ℚ) ^ (e - 52) := by positivity
  calc (n : ℚ) * (2 : ℚ) ^ (e - 52) ≤ (2 : ℚ) ^ (53 : ℤ) * (2 : ℚ) ^ (e - 52) :=
        mul_le_mul_of_nonneg_right hnQ hp.le
    _ = (2 : ℚ) ^ (e + 1) := by
        rw [← zpow_add₀ (by norm_num : (2 : ℚ) ≠ 0)]
        congr 1
        ring
    _ < (2 : ℚ) ^ (1024 : ℤ) := zpow_lt_zpow_right₀ (by norm_num) (by omega)

end EvalLemmas

/-- Evaluation of a product of positive numbers. -/
lemma mul_eval (a b q : ℚ) (e n : ℤ)
    (he1 : -1022 ≤ e) (he2 : e ≤ 1022) (hn : n ≤ 2 ^ 53)
    (h1 : (2 : ℚ) ^ e ≤ a * b) (h2 : a * b < (2 : ℚ) ^ (e + 1))
    (h3 : (n : ℚ) - 1 / 2 < a * b / (2 : ℚ) ^ (e - 52))
    (h4 : a * b / (2 : ℚ) ^ (e - 52) < (n : ℚ) + 1 / 2)
    (hq : q = (n : ℚ) * (2 : ℚ) ^ (e - 52)) :
    Dbl.mul (Dbl.fin false a) (Dbl.fin false b) = Dbl.fin false q := by
  simp only [Dbl.mul, Bool.xor_false]
  exact roundMag_eval_lt false _ e n q he1 he2 hn h1 h2 h3 h4 hq

/-- Evaluation of a quotient of positive numbers. -/
lemma div_eval (a b q : ℚ) (e n : ℤ) (hb : b ≠ 0)
    (he1 : -1022 ≤ e) (he2 : e ≤ 1022) (hn : n ≤ 2 ^ 53)
    (h1 : (2 : ℚ) ^ e ≤ a / b) (h2 : a / b < (2 : ℚ) ^ (e + 1))
    (h3 : (n : ℚ) - 1 / 2 < a / b / (2 : ℚ) ^ (e - 52))
    (h4 : a / b / (2 : ℚ) ^ (e - 52) < (n : ℚ) + 1 / 2)
    (hq : q = (n : ℚ) * (2 : ℚ) ^ (e - 52)) :
    Dbl.div (Dbl.fin false a) (Dbl.fin false b) = Dbl.fin false q := by
  simp only [Dbl.div, if_neg hb, Bool.xor_false]
  exact roundMag_eval_lt false _ e n q he1 he2 hn h1 h2 h3 h4 hq

/-- Evaluation of a sum of positive numbers. -/
lemma add_eval (a b q : ℚ) (e n : ℤ) (hpos : 0 < a + b)
    (he1 : -1022 ≤ e) (he2 : e ≤ 1022) (hn : n ≤ 2 ^ 53)
    (h1 : (2 : ℚ) ^ e ≤ a + b) (h2 : a + b < (2 : ℚ) ^ (e + 1))
    (h3 : (n : ℚ) - 1 / 2 < (a + b) / (2 : ℚ) ^ (e - 52))
    (h4 : (a + b) / (2 : ℚ) ^ (e - 52) < (n : ℚ) + 1 / 2)
    (hq : q = (n : ℚ) * (2 : ℚ) ^ (e - 52)) :
    Dbl.add (Dbl.fin false a) (Dbl.fin false b) = Dbl.fin false q := by
  simp only [Dbl.add, sval, Bool.false_eq_true, if_false, if_neg hpos.ne', roundTo,
    abs_of_pos hpos, decide_eq_false (not_lt.mpr hpos.le)]
  exact roundMag_eval_lt false _ e n q he1 he2 hn h1 h2 h3 h4 hq

/-- Evaluation of a square root of a positive number: `n` is the integer nearest
to `sqrt x / 2 ^ (e - 52)`, stated by comparing squares. -/
lemma sqrt_eval (x q : ℚ) (e n : ℤ) (hx : 0 < x)
    (he1 : -1022 ≤ e) (he2 : e ≤ 1022) (hn : n ≤ 2 ^ 53) (hn1 : 1 ≤ n)
    (h1 : ((2 : ℚ) ^ e) ^ 2 ≤ x) (h2 : x < ((2 : ℚ) ^ (e + 1)) ^ 2)
    (h3 : (((n : ℚ) - 1 / 2) * (2 : ℚ) ^ (e - 52)) ^ 2 < x)
    (h4 : x < (((n : ℚ) + 1 / 2) * (2 : ℚ) ^ (e - 52)) ^ 2)
    (hq : q = (n : ℚ) * (2 : ℚ) ^ (e - 52)) :
    Dbl.sqrt (Dbl.fin false x) = Dbl.fin false q := by
  have hxR : (0 : ℝ) ≤ ((x : ℚ) : ℝ) := by exact_mod_cast hx.le
  have hp : (0 : ℝ) < (2 : ℝ) ^ (e - 52) := by positivity
  have hnR : (1 : ℝ) ≤ (n : ℝ) := by exact_mod_cast hn1
  have g1 : (2 : ℝ) ^ e ≤ Real.sqrt (x : ℝ) := by
    rw [Real.le_sqrt (by positivity) hxR]
    have t : ((((2 : ℚ) ^ e) ^ 2 : ℚ) : ℝ) ≤ (x : ℝ) := Rat.cast_le.mpr h1
    simpa using t
  have g2 : Real.sqrt (x : ℝ) < (2 : ℝ) ^ (e + 1) := by
    rw [Real.sqrt_lt' (by positivity)]
    have t : (x : ℝ) < ((((2 : ℚ) ^ (e + 1)) ^ 2 : ℚ) : ℝ) := Rat.cast_lt.mpr h2
    simpa using t
  have g3 : (n : ℝ) - 1 / 2 < Real.sqrt (x : ℝ) / (2 : ℝ) ^ (e - 52) := by
    rw [lt_div_iff₀ hp, Real.lt_sqrt (mul_nonneg (by linarith) hp.le)]
    have t : ((((((n : ℚ) - 1 / 2) * (2 : ℚ) ^ (e - 52)) ^ 2 : ℚ)) : ℝ) < (x : ℝ) :=
      Rat.cast_lt.mpr h3
    simpa using t
  have g4 : Real.sqrt (x : ℝ) / (2 : ℝ) ^ (e - 52) < (n : ℝ) + 1 / 2 := by
    rw [div_lt_iff₀ hp, Real.sqrt_lt' (mul_pos (by linarith) hp)]
    have t : (x : ℝ) < ((((((n : ℚ) + 1 / 2) * (2 : ℚ) ^ (e - 52)) ^ 2 : ℚ)) : ℝ) :=
      Rat.cast_lt.mpr h4
    simpa using t
  simp only [Dbl.sqrt, if_neg hx.ne', Bool.false_eq_true, if_false]
  exact roundMag_eval_lt false _ e n q he1 he2 hn g1 g2 g3 g4 hq


/-! ## Binary64: sample evaluations at ordinary numbers -/

/-- In binary64 `0.1 * 0.2` is `0.020000000000000004`. -/
lemma mul_tenth_fifth :
    Dbl.mul (Dbl.fin false (3602879701896397 / 2 ^ 55)) (Dbl.fin false (3602879701896397 / 2 ^ 54))
      = Dbl.fin false (1441151880758559 / 2 ^ 56) :=
  mul_eval _ _ _ (-6) 5764607523034236 (by norm_num) (by norm_num) (by norm_num) (by norm_num)
    (by norm_num) (by norm_num) (by norm_num) (by norm_num)

/-- In binary64 `(0.1 * 0.2) * 0.3` is `0.006000000000000001`. -/
lemma mul_tenth_fifth_three_tenths :
    Dbl.mul (Dbl.fin false (1441151880758559 / 2 ^ 56)) (Dbl.fin false (5404319552844595 / 2 ^ 54))
      = Dbl.fin false (6917529027641083 / 2 ^ 60) :=
  mul_eval _ _ _ (-8) 6917529027641083 (by norm_num) (by norm_num) (by norm_num) (by norm_num)
    (by norm_num) (by norm_num) (by norm_num) (by norm_num)

/-- In binary64 `0.2 * 0.3` is `0.06`. -/
lemma mul_fifth_three_tenths :
    Dbl.mul (Dbl.fin false (3602879701896397 / 2 ^ 54)) (Dbl.fin false (5404319552844595 / 2 ^ 54))
      = Dbl.fin false (1080863910568919 / 2 ^ 54) :=
  mul_eval _ _ _ (-5) 8646911284551352 (by norm_num) (by norm_num) (by norm_num) (by norm_num)
    (by norm_num) (by norm_num) (by norm_num) (by norm_num)

/-- In binary64 `0.1 * (0.2 * 0.3)` is `0.006`. -/
lemma mul_tenth_six_hundredths :
    Dbl.mul (Dbl.fin false (3602879701896397 / 2 ^ 55)) (Dbl.fin false (1080863910568919 / 2 ^ 54))
      = Dbl.fin false (3458764513820541 / 2 ^ 59) :=
  mul_eval _ _ _ (-8) 6917529027641082 (by norm_num) (by norm_num) (by norm_num) (by norm_num)
    (by norm_num) (by norm_num) (by norm_num) (by norm_num)

/-- In binary64 `0.5 / 0.1` is `5`, although the exact quotient is below 5. -/
lemma div_half_tenth :
    Dbl.div (Dbl.fin false (1 / 2)) (Dbl.fin false (3602879701896397 / 2 ^ 55))
      = Dbl.fin false 5 :=
  div_eval _ _ _ (2) 5629499534213120 (by norm_num) (by norm_num)
    (by norm_num) (by norm_num) (by norm_num)
    (by norm_num) (by norm_num) (by norm_num) (by norm_num)

/-- In binary64 `0.5 + 0.1` is `0.6`. -/
lemma add_half_tenth :
    Dbl.add (Dbl.fin false (1 / 2)) (Dbl.fin false (3602879701896397 / 2 ^ 55))
      = Dbl.fin false (5404319552844595 / 2 ^ 53) :=
  add_eval _ _ _ (-1) 5404319552844595 (by norm_num) (by norm_num)
    (by norm_num) (by norm_num) (by norm_num)
    (by norm_num) (by norm_num) (by norm_num) (by norm_num)

/-- In binary64 `0.6 / 0.1` is `5.999999999999999`. -/
lemma div_six_tenths_tenth :
    Dbl.div (Dbl.fin false (5404319552844595 / 2 ^ 53)) (Dbl.fin false (3602879701896397 / 2 ^ 55))
      = Dbl.fin false (6755399441055743 / 2 ^ 50) :=
  div_eval _ _ _ (2) 6755399441055743 (by norm_num) (by norm_num)
    (by norm_num) (by norm_num) (by norm_num)
    (by norm_num) (by norm_num) (by norm_num) (by norm_num)

/-- In binary64 `93 / 5` is the number nearest to `18.6`. -/
lemma div_93_5 :
    Dbl.div (Dbl.fin false 93) (Dbl.fin false 5)
      = Dbl.fin false (2617717283409101 / 2 ^ 47) :=
  div_eval _ _ _ (4) 5235434566818202 (by norm_num) (by norm_num)
    (by norm_num) (by norm_num) (by norm_num)
    (by norm_num) (by norm_num) (by norm_num) (by norm_num)

/-- In binary64 `124 / 5` is the number nearest to `24.8`. -/
lemma div_124_5 :
    Dbl.div (Dbl.fin false 124) (Dbl.fin false 5)
      = Dbl.fin false (6980579422424269 / 2 ^ 48) :=
  div_eval _ _ _ (4) 6980579422424269 (by norm_num) (by norm_num)
    (by norm_num) (by norm_num) (by norm_num)
    (by norm_num) (by norm_num) (by norm_num) (by norm_num)

/-- In binary64 the square of `93 / 5` is `345.96000000000004`. -/
lemma sq_93_5 :
    Dbl.mul (Dbl.fin false (2617717283409101 / 2 ^ 47)) (Dbl.fin false (2617717283409101 / 2 ^ 47))
      = Dbl.fin false (380387042745385 / 2 ^ 40) :=
  mul_eval _ _ _ (8) 6086192683926160 (by norm_num) (by norm_num) (by norm_num) (by norm_num)
    (by norm_num) (by norm_num) (by norm_num) (by norm_num)

/-- In binary64 the square of `124 / 5` is `615.0400000000001`. -/
lemma sq_124_5 :
    Dbl.mul (Dbl.fin false (6980579422424269 / 2 ^ 48)) (Dbl.fin false (6980579422424269 / 2 ^ 48))
      = Dbl.fin false (5409949052378809 / 2 ^ 43) :=
  mul_eval _ _ _ (9) 5409949052378809 (by norm_num) (by norm_num) (by norm_num) (by norm_num)
    (by norm_num) (by norm_num) (by norm_num) (by norm_num)

/-- In binary64 the sum of the two squares is `961.0000000000001`. -/
lemma sum_sq_93_124_5 :
    Dbl.add (Dbl.fin false (380387042745385 / 2 ^ 40)) (Dbl.fin false (5409949052378809 / 2 ^ 43))
      = Dbl.fin false (8453045394341889 / 2 ^ 43) :=
  add_eval _ _ _ (9) 8453045394341889 (by norm_num) (by norm_num)
    (by norm_num) (by norm_num) (by norm_num)
    (by norm_num) (by norm_num) (by norm_num) (by norm_num)

/-- In binary64 the square root of `961.0000000000001` is `31.000000000000004`. -/
lemma sqrt_sum_sq_93_124_5 :
    Dbl.sqrt (Dbl.fin false (8453045394341889 / 2 ^ 43))
      = Dbl.fin false (8725724278030337 / 2 ^ 48) :=
  sqrt_eval _ _ (4) 8725724278030337 (by norm_num) (by norm_num) (by norm_num)
    (by norm_num) (by norm_num) (by norm_num) (by norm_num) (by norm_num) (by norm_num)
    (by norm_num)

/-- In binary64 `93 * 93` is `8649`. -/
lemma sq_93 :
    Dbl.mul (Dbl.fin false 93) (Dbl.fin false 93)
      = Dbl.fin false 8649 :=
  mul_eval _ _ _ (13) 4754838034317312 (by norm_num) (by norm_num) (by norm_num) (by norm_num)
    (by norm_num) (by norm_num) (by norm_num) (by norm_num)

/-- In binary64 `124 * 124` is `15376`. -/
lemma sq_124 :
    Dbl.mul (Dbl.fin false 124) (Dbl.fin false 124)
      = Dbl.fin false 15376 :=
  mul_eval _ _ _ (13) 8453045394341888 (by norm_num) (by norm_num) (by norm_num) (by norm_num)
    (by norm_num) (by norm_num) (by norm_num) (by norm_num)

/-- In binary64 `8649 + 15376` is `24025`. -/
lemma sum_sq_93_124 :
    Dbl.add (Dbl.fin false 8649) (Dbl.fin false 15376)
      = Dbl.fin false 24025 :=
  add_eval _ _ _ (14) 6603941714329600 (by norm_num) (by norm_num)
    (by norm_num) (by norm_num) (by norm_num)
    (by norm_num) (by norm_num) (by norm_num) (by norm_num)

/-- In binary64 the square root of `24025` is `155`. -/
lemma sqrt_24025 :
    Dbl.sqrt (Dbl.fin false 24025) = Dbl.fin false 155 := by
  have hx : (0 : ℚ) < 24025 := by norm_num
  have hs : Real.sqrt (((24025 : ℚ)) : ℝ) = 155 := by
    have : (((24025 : ℚ)) : ℝ) = 155 * 155 := by norm_num
    rw [this]
    exact Real.sqrt_mul_self (by norm_num)
  simp only [Dbl.sqrt, if_neg hx.ne', Bool.false_eq_true, if_false, hs]
  exact roundMag_of_eq false _ _ 5453577673768960 (-45) (by norm_num) (by norm_num)
    (by norm_num) (by norm_num) (by norm_num) (by norm_num)

/-- In binary64 `155 / 5` is `31`. -/
lemma div_155_5 :
    Dbl.div (Dbl.fin false 155) (Dbl.fin false 5)
      = Dbl.fin false 31 :=
  div_eval _ _ _ (4) 8725724278030336 (by norm_num) (by norm_num)
    (by norm_num) (by norm_num) (by norm_num)
    (by norm_num) (by norm_num) (by norm_num) (by norm_num)


lemma floor_eval (q : ℚ) (n : ℕ) (h1 : (n : ℚ) ≤ q) (h2 : q < (n : ℚ) + 1) :
    Dbl.floor (Dbl.fin false q) = Dbl.fin false (n : ℚ) := by
  have hfl : ⌊q⌋ = (n : ℤ) := by
    rw [Int.floor_eq_iff]
    constructor
    · exact_mod_cast h1
    · exact_mod_cast h2
  simp only [Dbl.floor, sval, Bool.false_eq_true, if_false, hfl]
  congr 1
  · split_ifs with h
    · rfl
    · simp
  · simp

lemma ceil_eval (q : ℚ) (n : ℕ) (h1 : (n : ℚ) - 1 < q) (h2 : q ≤ (n : ℚ)) :
    Dbl.ceil (Dbl.fin false q) = Dbl.fin false (n : ℚ) := by
  have hfl : ⌈q⌉ = (n : ℤ) := by
    rw [Int.ceil_eq_iff]
    constructor
    · exact_mod_cast h1
    · exact_mod_cast h2
  simp only [Dbl.ceil, sval, Bool.false_eq_true, if_false, hfl]
  congr 1
  · split_ifs with h
    · rfl
    · simp
  · simp

/-- On an odd natural number `fmod(·, 2)` is one. -/
lemma fmod_two_mul_add_one (n : ℕ) :
    Dbl.fmod (Dbl.fin false ((2 * n + 1 : ℕ) : ℚ)) (Dbl.fin false 2) = Dbl.fin false 1 := by
  have h2 : (2 : ℚ) ≠ 0 := by norm_num
  have hfl : ⌊|(((2 * n + 1 : ℕ) : ℚ))| / |(2 : ℚ)|⌋ = (n : ℤ) := by
    rw [abs_of_nonneg (by positivity), abs_of_pos (by norm_num), Int.floor_eq_iff]
    push_cast
    constructor
    · rw [le_div_iff₀ (by norm_num)]
      linarith
    · rw [div_lt_iff₀ (by norm_num)]
      linarith
  simp only [Dbl.fmod, if_neg h2, hfl]
  congr 1
  rw [abs_of_nonneg (by positivity), abs_of_pos (by norm_num : (0 : ℚ) < 2)]
  push_cast
  ring

lemma div_zero_pos {q : ℚ} (hq : q ≠ 0) :
    Dbl.div (Dbl.fin false 0) (Dbl.fin false q) = Dbl.fin false 0 := by
  simp only [Dbl.div, if_neg hq, Bool.xor_false, zero_div]
  exact roundMag_zero false

lemma add_five_one : Dbl.add (Dbl.fin false 5) (Dbl.fin false 1) = Dbl.fin false 6 :=
  add_pos_exact 5 1 6 6755399441055744 (-50) (by norm_num) one_pos (by norm_num) (by norm_num)
    (by norm_num) (by norm_num) (by norm_num) (by norm_num)

/-- In binary64 `checker(0.1)(Point(0.5, 0))` is 0: the quotient `0.5 / 0.1`
rounds up to 5. -/
lemma checker_tenth_half :
    checker (Dbl.fin false (3602879701896397 / 2 ^ 55))
        (Point.mk (Dbl.fin false (1 / 2)) (Dbl.fin false 0))
      = Dbl.fin false 0 := by
  have hs : (0 : ℚ) < 3602879701896397 / 2 ^ 55 := by norm_num
  have hf5 : Dbl.floor (Dbl.fin false 5) = Dbl.fin false 5 := by
    have := floor_natCast 5
    simpa using this
  have hf0 : Dbl.floor (Dbl.fin false 0) = Dbl.fin false 0 := by
    have := floor_natCast 0
    simpa using this
  have hmod : Dbl.fmod (Dbl.fin false 6) (Dbl.fin false 2) = Dbl.fin false 0 := by
    have := fmod_two_mul 3
    simpa using this
  unfold checker
  simp only [ofNat_zero, ofNat_one, ofNat_two]
  rw [le_zero_of_pos hs, div_half_tenth, hf5, div_zero_pos hs.ne', hf0, add_zero_one]
  simp only [Dbl.abs, Bool.false_eq_true, if_false]
  rw [add_five_one, hmod]

/-- In binary64 `checker(0.1)(Point(0.6, 0))` is 0: the quotient `0.6 / 0.1`
rounds to `5.999999999999999`. -/
lemma checker_tenth_six_tenths :
    checker (Dbl.fin false (3602879701896397 / 2 ^ 55))
        (Point.mk (Dbl.fin false (5404319552844595 / 2 ^ 53)) (Dbl.fin false 0))
      = Dbl.fin false 0 := by
  have hs : (0 : ℚ) < 3602879701896397 / 2 ^ 55 := by norm_num
  have hf5 : Dbl.floor (Dbl.fin false (6755399441055743 / 2 ^ 50)) = Dbl.fin false 5 := by
    have := floor_eval (6755399441055743 / 2 ^ 50) 5 (by norm_num) (by norm_num)
    simpa using this
  have hf0 : Dbl.floor (Dbl.fin false 0) = Dbl.fin false 0 := by
    have := floor_natCast 0
    simpa using this
  have hmod : Dbl.fmod (Dbl.fin false 6) (Dbl.fin false 2) = Dbl.fin false 0 := by
    have := fmod_two_mul 3
    simpa using this
  unfold checker
  simp only [ofNat_zero, ofNat_one, ofNat_two]
  rw [le_zero_of_pos hs, div_six_tenths_tenth, hf5, div_zero_pos hs.ne', hf0, add_zero_one]
  simp only [Dbl.abs, Bool.false_eq_true, if_false]
  rw [add_five_one, hmod]

/-- In binary64 `scale(rings(1), Point(5, 5))(Point(93, 124))` is 0: the
distance of `(93 / 5, 124 / 5)` from the origin rounds to a number above 31. -/
lemma scale_rings_one_93_124 :
    scale (rings (Dbl.fin false 1)) (Point.mk (Dbl.fin false 5) (Dbl.fin false 5))
        (Point.mk (Dbl.fin false 93) (Dbl.fin false 124))
      = Dbl.fin false 0 := by
  have hd1 : Dbl.div (Dbl.fin false (8725724278030337 / 2 ^ 48)) (Dbl.fin false 1)
      = Dbl.fin false (8725724278030337 / 2 ^ 48) :=
    div_one_of_normal _ 8725724278030337 (-48) (by norm_num) (by norm_num) (by norm_num)
      (by norm_num) (by norm_num)
  have hceil : Dbl.ceil (Dbl.fin false (8725724278030337 / 2 ^ 48)) = Dbl.fin false 32 := by
    have := ceil_eval (8725724278030337 / 2 ^ 48) 32 (by norm_num) (by norm_num)
    simpa using this
  have hmod : Dbl.fmod (Dbl.fin false 32) (Dbl.fin false 2) = Dbl.fin false 0 := by
    have := fmod_two_mul 16
    simpa using this
  unfold scale rings
  simp only [ofNat_zero, ofNat_one, ofNat_two]
  rw [div_93_5, div_124_5, le_zero_of_pos one_pos, eq_zero_of_pos (by norm_num), sq_93_5,
    sq_124_5, sum_sq_93_124_5, sqrt_sum_sq_93_124_5, hd1, hceil, hmod]
  rfl

/-- In binary64 `rings(5)(Point(93, 124))` is 1: the distance from the origin
is exactly 155. -/
lemma rings_five_93_124 :
    rings (Dbl.fin false 5) (Point.mk (Dbl.fin false 93) (Dbl.fin false 124))
      = Dbl.fin false 1 := by
  have hceil : Dbl.ceil (Dbl.fin false 31) = Dbl.fin false 31 := by
    have := ceil_natCast 31
    simpa using this
  have hmod : Dbl.fmod (Dbl.fin false 31) (Dbl.fin false 2) = Dbl.fin false 1 := by
    have := fmod_two_mul_add_one 15
    simpa using this
  unfold rings
  simp only [ofNat_zero, ofNat_one, ofNat_two]
  rw [le_zero_of_pos (by norm_num), eq_zero_of_pos (by norm_num), sq_93, sq_124, sum_sq_93_124,
    sqrt_24025, div_155_5, hceil, hmod]
  rfl


lemma ofNat_90 : Dbl.ofNat 90 = Dbl.fin false 90 := by
  unfold Dbl.ofNat
  exact roundTo_of_eq _ _ 6333186975989760 (-46) (by norm_num) (by norm_num) (by norm_num)
    (by norm_num) (by norm_num) (by norm_num)

lemma ofNat_180 : Dbl.ofNat 180 = Dbl.fin false 180 := by
  unfold Dbl.ofNat
  exact roundTo_of_eq _ _ 6333186975989760 (-45) (by norm_num) (by norm_num) (by norm_num)
    (by norm_num) (by norm_num) (by norm_num)

/-- The product `90 * pi` in binary64. -/
lemma mul_90_pi :
    Dbl.mul (Dbl.fin false 90) Dbl.pi = Dbl.fin false (4974073419394997 / 2 ^ 44) := by
  have hmax : max (8 : ℤ) (-1022) - 52 = -44 := by norm_num
  have hr : roundHalfEven ((90 * (884279719003555 / 2 ^ 48) : ℚ)
      / (2 : ℚ) ^ (max (8 : ℤ) (-1022) - 52)) = 4974073419394997 := by
    rw [hmax]
    apply roundHalfEven_of_lt <;> norm_num
  simp only [Dbl.mul, Dbl.pi, Bool.xor_false]
  rw [roundMag_eval false _ 8 4974073419394997 (by norm_num) (by norm_num) hr, hmax]
  norm_num

/-- The captured angle `rad = 90 * pi / 180` in binary64: half of the binary64 `pi`. -/
lemma rad_90 :
    Dbl.div (Dbl.mul (Dbl.fin false 90) Dbl.pi) (Dbl.fin false 180)
      = Dbl.fin false (884279719003555 / 2 ^ 49) := by
  have hmax : max (0 : ℤ) (-1022) - 52 = -52 := by norm_num
  have hr : roundHalfEven ((4974073419394997 / 2 ^ 44 / 180 : ℚ)
      / (2 : ℚ) ^ (max (0 : ℤ) (-1022) - 52)) = 7074237752028440 := by
    rw [hmax]
    apply roundHalfEven_of_lt <;> norm_num
  rw [mul_90_pi]
  simp only [Dbl.div, if_neg (by norm_num : (180 : ℚ) ≠ 0), Bool.xor_false]
  rw [roundMag_eval false _ 0 7074237752028440 (by norm_num) (by norm_num) hr, hmax]
  norm_num

/-- The binary64 `pi / 2` lies below the real `π / 2`, by more than `6e-17`. -/
lemma half_pi_gap :
    (6 : ℝ) / 10 ^ 17 < Real.pi / 2 - ((884279719003555 / 2 ^ 49 : ℚ) : ℝ) := by
  have h := Real.pi_gt_d20
  push_cast
  norm_num at h ⊢
  linarith

/-- The real cosine of the binary64 `pi / 2` is positive and of normal size. -/
lemma cos_half_pi_bounds :
    (2 : ℝ) ^ (-1022 : ℤ) ≤ Real.cos ((884279719003555 / 2 ^ 49 : ℚ) : ℝ)
      ∧ Real.cos ((884279719003555 / 2 ^ 49 : ℚ) : ℝ) ≤ (2 : ℝ) ^ (1023 : ℤ) := by
  set r : ℝ := ((884279719003555 / 2 ^ 49 : ℚ) : ℝ) with hr
  have hgap := half_pi_gap
  rw [← hr] at hgap
  have hrpos : 0 < r := by
    rw [hr]
    push_cast
    positivity
  have hpi4 : Real.pi < 4 := Real.pi_lt_four
  have hpi0 : 0 < Real.pi := Real.pi_pos
  have hδ0 : 0 ≤ Real.pi / 2 - r := by linarith
  have hδ1 : Real.pi / 2 - r ≤ Real.pi / 2 := by linarith
  have hsin := Real.mul_le_sin hδ0 hδ1
  rw [Real.sin_pi_div_two_sub] at hsin
  have h2pi : (1 : ℝ) / 2 ≤ 2 / Real.pi := by
    rw [le_div_iff₀ hpi0]
    linarith
  have hlow : (3 : ℝ) / 10 ^ 17 ≤ Real.cos r := by
    have : (1 : ℝ) / 2 * (Real.pi / 2 - r) ≤ 2 / Real.pi * (Real.pi / 2 - r) :=
      mul_le_mul_of_nonneg_right h2pi hδ0
    linarith
  constructor
  · have : (2 : ℝ) ^ (-1022 : ℤ) ≤ 3 / 10 ^ 17 := by
      have h1 : (2 : ℝ) ^ (-1022 : ℤ) ≤ (2 : ℝ) ^ (-60 : ℤ) :=
        zpow_le_zpow_right₀ (by norm_num) (by norm_num)
      have h2 : (2 : ℝ) ^ (-60 : ℤ) ≤ 3 / 10 ^ 17 := by norm_num
      exact le_trans h1 h2
    exact le_trans this hlow
  · have h1 : Real.cos r ≤ 1 := Real.cos_le_one r
    have h2 : (1 : ℝ) ≤ (2 : ℝ) ^ (1023 : ℤ) := one_le_zpow₀ (by norm_num) (by norm_num)
    exact le_trans h1 h2


/-- The real sine of the binary64 `pi / 2` is positive and of normal size. -/
lemma sin_half_pi_bounds :
    (2 : ℝ) ^ (-1022 : ℤ) ≤ Real.sin ((884279719003555 / 2 ^ 49 : ℚ) : ℝ)
      ∧ Real.sin ((884279719003555 / 2 ^ 49 : ℚ) : ℝ) ≤ (2 : ℝ) ^ (1023 : ℤ) := by
  set r : ℝ := ((884279719003555 / 2 ^ 49 : ℚ) : ℝ) with hr
  have hgap := half_pi_gap
  rw [← hr] at hgap
  have hr1 : (1 : ℝ) ≤ r := by
    rw [hr]
    push_cast
    norm_num
  have hpi4 : Real.pi < 4 := Real.pi_lt_four
  have hpi0 : 0 < Real.pi := Real.pi_pos
  have hsin := Real.mul_le_sin (by linarith : (0 : ℝ) ≤ r) (by linarith : r ≤ Real.pi / 2)
  have h2pi : (1 : ℝ) / 2 ≤ 2 / Real.pi := by
    rw [le_div_iff₀ hpi0]
    linarith
  have hlow : (1 : ℝ) / 2 ≤ Real.sin r := by
    have : (1 : ℝ) / 2 * r ≤ 2 / Real.pi * r :=
      mul_le_mul_of_nonneg_right h2pi (by linarith)
    linarith
  constructor
  · have h1 : (2 : ℝ) ^ (-1022 : ℤ) ≤ (2 : ℝ) ^ (-1 : ℤ) :=
      zpow_le_zpow_right₀ (by norm_num) (by norm_num)
    have h2 : (2 : ℝ) ^ (-1 : ℤ) = 1 / 2 := by norm_num
    rw [h2] at h1
    exact le_trans h1 hlow
  · have h1 : Real.sin r ≤ 1 := Real.sin_le_one r
    have h2 : (1 : ℝ) ≤ (2 : ℝ) ^ (1023 : ℤ) := one_le_zpow₀ (by norm_num) (by norm_num)
    exact le_trans h1 h2

/-- In binary64 `cos(-rad)` for `rad = 90 * pi / 180` is a positive number. -/
lemma cos_neg_rad_90 :
    ∃ q : ℚ, Dbl.cos (Dbl.neg (Dbl.fin false (884279719003555 / 2 ^ 49))) = Dbl.fin false q
      ∧ (2 : ℚ) ^ (-1022 : ℤ) ≤ q ∧ q ≤ (2 : ℚ) ^ (1023 : ℤ) := by
  obtain ⟨h1, h2⟩ := cos_half_pi_bounds
  have hpos : 0 < Real.cos ((884279719003555 / 2 ^ 49 : ℚ) : ℝ) :=
    lt_of_lt_of_le (by positivity) h1
  have harg : ((sval true (884279719003555 / 2 ^ 49) : ℚ) : ℝ)
      = -((884279719003555 / 2 ^ 49 : ℚ) : ℝ) := by
    simp only [sval, if_true]
    push_cast
    ring
  simp only [Dbl.neg, Dbl.cos, Bool.not_false, harg, Real.cos_neg, roundTo,
    abs_of_pos hpos, decide_eq_false (not_lt.mpr hpos.le)]
  exact roundMag_normal_range false _ h1 h2

/-- In binary64 `sin(-rad)` for `rad = 90 * pi / 180` is a finite number. -/
lemma sin_neg_rad_90 :
    ∃ (t : Bool) (q : ℚ),
      Dbl.sin (Dbl.neg (Dbl.fin false (884279719003555 / 2 ^ 49))) = Dbl.fin t q := by
  obtain ⟨h1, h2⟩ := sin_half_pi_bounds
  have hpos : 0 < Real.sin ((884279719003555 / 2 ^ 49 : ℚ) : ℝ) :=
    lt_of_lt_of_le (by positivity) h1
  have harg : ((sval true (884279719003555 / 2 ^ 49) : ℚ) : ℝ)
      = -((884279719003555 / 2 ^ 49 : ℚ) : ℝ) := by
    simp only [sval, if_true]
    push_cast
    ring
  have hne : (884279719003555 / 2 ^ 49 : ℚ) ≠ 0 := by norm_num
  simp only [Dbl.neg, Dbl.sin, Bool.not_false, if_neg hne, harg, Real.sin_neg, roundTo,
    abs_neg, abs_of_pos hpos]
  obtain ⟨q, hq, -, -⟩ := roundMag_normal_range
    (decide (-Real.sin ((884279719003555 / 2 ^ 49 : ℚ) : ℝ) < 0)) _ h1 h2
  exact ⟨_, q, hq⟩

/-- In binary64 `rotate(slope, 90)(Point(1, 0))` is a positive number. -/
lemma rotate_slope_90 :
    ∃ q : ℚ, 0 < q ∧
      rotate slope (Dbl.fin false 90) (Point.mk (Dbl.fin false 1) (Dbl.fin false 0))
        = Dbl.fin false q := by
  obtain ⟨c, hc, hc1, hc2⟩ := cos_neg_rad_90
  obtain ⟨t, s, hs⟩ := sin_neg_rad_90
  obtain ⟨c1, hmul, hc11, hc12⟩ := roundMag_normal_range false c hc1 hc2
  obtain ⟨c2, hsub, hc21, -⟩ := roundMag_normal_range false c1 hc11 hc12
  have hc1pos : 0 < c1 := lt_of_lt_of_le (by positivity) hc11
  have hmx : Dbl.mul (Dbl.fin false 1) (Dbl.fin false c) = Dbl.fin false c1 := by
    simp only [Dbl.mul, Bool.xor_false, one_mul]
    exact hmul
  have hmy : Dbl.mul (Dbl.fin false 0) (Dbl.fin t s) = Dbl.fin t 0 := by
    simp only [Dbl.mul, Bool.false_xor, zero_mul]
    exact roundMag_zero t
  have hsb : Dbl.sub (Dbl.fin false c1) (Dbl.fin t 0) = Dbl.fin false c2 := by
    have hv : sval false c1 + sval (!t) 0 = c1 := by
      cases t <;> simp [sval]
    simp only [Dbl.sub, Dbl.neg, Dbl.add, hv, if_neg hc1pos.ne', roundTo, abs_of_pos hc1pos,
      decide_eq_false (not_lt.mpr hc1pos.le)]
    exact hsub
  refine ⟨c2, lt_of_lt_of_le (by positivity) hc21, ?_⟩
  simp only [rotate, slope, ofNat_180]
  rw [rad_90, hc, hs, hmx, hmy, hsb]

end Fp

/-! ## Counterexamples in binary64 -/

/-- Counterexample to C5 in binary64: with `f = slope`, `x = 1`, `y = 0` the code
gives a positive `rotate(f, 90)(Point(x, y))`, because `cos(-rad)` is the
cosine of a binary64 number just below `π / 2`, while `f(Point(y, -x)) = 0`. -/
theorem rotate_quarter_turn_fails_binary64 :
    Fp.Dbl.eq
        (Fp.rotate Fp.slope (Fp.Dbl.ofNat 90) (Point.mk (Fp.Dbl.ofNat 1) (Fp.Dbl.ofNat 0)))
        (Fp.slope (Point.mk (Fp.Dbl.ofNat 0) (Fp.Dbl.neg (Fp.Dbl.ofNat 1))))
      = false
    ∧ Fp.Dbl.lt
        (Fp.slope (Point.mk (Fp.Dbl.ofNat 0) (Fp.Dbl.neg (Fp.Dbl.ofNat 1))))
        (Fp.rotate Fp.slope (Fp.Dbl.ofNat 90) (Point.mk (Fp.Dbl.ofNat 1) (Fp.Dbl.ofNat 0)))
      = true := by
  obtain ⟨q, hq, h⟩ := Fp.rotate_slope_90
  rw [Fp.ofNat_90, Fp.ofNat_one, Fp.ofNat_zero, h]
  exact ⟨Fp.eq_zero_of_pos hq, Fp.lt_zero_of_pos hq⟩

/-- Counterexample to C14 in binary64.  With `f = slope`, `p.x = 0.1`, `c1 = 0.2`
and `c2 = 0.3` the code gives `mul(mul(f, c1), c2)(p) = 0.006000000000000001`
and `mul(f, c1 * c2)(p) = 0.006`.  With `p.x = c1 = 2 ^ 600` and
`c2 = 2 ^ (-600)` the product `f(p) * c1` overflows, so the first is infinite
and the second is `2 ^ 600`. -/
theorem mul_mul_fails_binary64 :
    (Fp.mul (Fp.mul Fp.slope (Fp.Dbl.fin false (3602879701896397 / 2 ^ 54)))
          (Fp.Dbl.fin false (5404319552844595 / 2 ^ 54))
          (Point.mk (Fp.Dbl.fin false (3602879701896397 / 2 ^ 55)) (Fp.Dbl.ofNat 0))
        = Fp.Dbl.fin false (6917529027641083 / 2 ^ 60)
      ∧ Fp.mul Fp.slope
          (Fp.Dbl.mul (Fp.Dbl.fin false (3602879701896397 / 2 ^ 54))
            (Fp.Dbl.fin false (5404319552844595 / 2 ^ 54)))
          (Point.mk (Fp.Dbl.fin false (3602879701896397 / 2 ^ 55)) (Fp.Dbl.ofNat 0))
        = Fp.Dbl.fin false (3458764513820541 / 2 ^ 59)
      ∧ Fp.Dbl.eq (Fp.Dbl.fin false (6917529027641083 / 2 ^ 60))
          (Fp.Dbl.fin false (3458764513820541 / 2 ^ 59)) = false)
    ∧ (Fp.mul (Fp.mul Fp.slope (Fp.Dbl.fin false ((2 : ℚ) ^ (600 : ℤ))))
          (Fp.Dbl.fin false ((2 : ℚ) ^ (-600 : ℤ)))
          (Point.mk (Fp.Dbl.fin false ((2 : ℚ) ^ (600 : ℤ))) (Fp.Dbl.ofNat 0))
        = Fp.Dbl.inf false
      ∧ Fp.mul Fp.slope
          (Fp.Dbl.mul (Fp.Dbl.fin false ((2 : ℚ) ^ (600 : ℤ)))
            (Fp.Dbl.fin false ((2 : ℚ) ^ (-600 : ℤ))))
          (Point.mk (Fp.Dbl.fin false ((2 : ℚ) ^ (600 : ℤ))) (Fp.Dbl.ofNat 0))
        = Fp.Dbl.fin false ((2 : ℚ) ^ (600 : ℤ))
      ∧ Fp.Dbl.eq (Fp.Dbl.inf false) (Fp.Dbl.fin false ((2 : ℚ) ^ (600 : ℤ))) = false) := by
  refine ⟨⟨?_, ?_, ?_⟩, ⟨?_, ?_, rfl⟩⟩
  · simp only [Fp.mul, Fp.slope]
    rw [Fp.mul_tenth_fifth, Fp.mul_tenth_fifth_three_tenths]
  · simp only [Fp.mul, Fp.slope]
    rw [Fp.mul_fifth_three_tenths, Fp.mul_tenth_six_hundredths]
  · simp only [Fp.Dbl.eq, Fp.sval, Bool.false_eq_true, if_false, decide_eq_false_iff_not]
    norm_num
  · simp only [Fp.mul, Fp.slope]
    rw [Fp.mul_huge_self, Fp.mul_inf_tiny]
  · simp only [Fp.mul, Fp.slope]
    rw [Fp.mul_huge_tiny, Fp.mul_huge_one]

/-- Counterexample to C18 in binary64.  With `s = 0.1`, `x = 0.5`, `y = 0` the sum
`x + s` is `0.6`, and the code gives `checker(s)(x, y) = 0` and
`checker(s)(x + s, y) = 0`, which is not `1 - checker(s)(x, y) = 1`.  The
same happens with `s = 1`, `x = 2 ^ 53 - 1`, `y = 0`. -/
theorem checker_alternates_fails_binary64 :
    (Fp.Dbl.lt (Fp.Dbl.ofNat 0) (Fp.Dbl.fin false (3602879701896397 / 2 ^ 55)) = true
      ∧ Fp.Dbl.eq
          (Fp.checker (Fp.Dbl.fin false (3602879701896397 / 2 ^ 55))
            (Point.mk
              (Fp.Dbl.add (Fp.Dbl.fin false (1 / 2))
                (Fp.Dbl.fin false (3602879701896397 / 2 ^ 55)))
              (Fp.Dbl.ofNat 0)))
          (Fp.Dbl.sub (Fp.Dbl.ofNat 1)
            (Fp.checker (Fp.Dbl.fin false (3602879701896397 / 2 ^ 55))
              (Point.mk (Fp.Dbl.fin false (1 / 2)) (Fp.Dbl.ofNat 0))))
          = false)
    ∧ (Fp.Dbl.lt (Fp.Dbl.ofNat 0) (Fp.Dbl.ofNat 1) = true
      ∧ Fp.Dbl.eq
          (Fp.checker (Fp.Dbl.ofNat 1)
            (Point.mk (Fp.Dbl.add (Fp.Dbl.fin false 9007199254740991) (Fp.Dbl.ofNat 1))
              (Fp.Dbl.ofNat 0)))
          (Fp.Dbl.sub (Fp.Dbl.ofNat 1)
            (Fp.checker (Fp.Dbl.ofNat 1)
              (Point.mk (Fp.Dbl.fin false 9007199254740991) (Fp.Dbl.ofNat 0))))
          = false) := by
  refine ⟨⟨?_, ?_⟩, ⟨?_, ?_⟩⟩
  · rw [Fp.ofNat_zero]
    exact Fp.lt_zero_of_pos (by norm_num)
  · rw [Fp.ofNat_zero, Fp.ofNat_one, Fp.add_half_tenth, Fp.checker_tenth_six_tenths,
      Fp.checker_tenth_half, Fp.one_sub_zero]
    exact Fp.eq_zero_one
  · rw [Fp.ofNat_zero, Fp.ofNat_one]
    exact Fp.lt_zero_of_pos one_pos
  · rw [Fp.ofNat_zero, Fp.ofNat_one, Fp.pred_two_pow_53_add_one, Fp.checker_one_two_pow_53,
      Fp.checker_one_pred_two_pow_53, Fp.one_sub_zero]
    exact Fp.eq_zero_one

/-- Counterexample to C20 in binary64.  With `s = 5` and `p = (93, 124)` the code
gives `scale(rings(1), Point(s, s))(p) = 0` and `rings(s)(p) = 1`.  With
`s = 4` and `p = (2 ^ 512, 0)` it gives 0 for the first, while in `rings(s)(p)`
the square `p.x * p.x` overflows and the result is NaN. -/
theorem scale_rings_fails_binary64 :
    (Fp.Dbl.lt (Fp.Dbl.ofNat 0) (Fp.Dbl.fin false 5) = true
      ∧ Fp.scale (Fp.rings (Fp.Dbl.ofNat 1)) (Point.mk (Fp.Dbl.fin false 5) (Fp.Dbl.fin false 5))
          (Point.mk (Fp.Dbl.fin false 93) (Fp.Dbl.fin false 124)) = Fp.Dbl.fin false 0
      ∧ Fp.rings (Fp.Dbl.fin false 5) (Point.mk (Fp.Dbl.fin false 93) (Fp.Dbl.fin false 124))
          = Fp.Dbl.fin false 1
      ∧ Fp.Dbl.eq (Fp.Dbl.fin false 0) (Fp.Dbl.fin false 1) = false)
    ∧ (Fp.Dbl.lt (Fp.Dbl.ofNat 0) (Fp.Dbl.fin false 4) = true
      ∧ Fp.scale (Fp.rings (Fp.Dbl.ofNat 1)) (Point.mk (Fp.Dbl.fin false 4) (Fp.Dbl.fin false 4))
          (Point.mk (Fp.Dbl.fin false ((2 : ℚ) ^ (512 : ℤ))) (Fp.Dbl.ofNat 0))
          = Fp.Dbl.fin false 0
      ∧ Fp.rings (Fp.Dbl.fin false 4)
          (Point.mk (Fp.Dbl.fin false ((2 : ℚ) ^ (512 : ℤ))) (Fp.Dbl.ofNat 0))
          = Fp.Dbl.nan
      ∧ Fp.Dbl.eq (Fp.Dbl.fin false 0) Fp.Dbl.nan = false) := by
  refine ⟨⟨?_, ?_, ?_, ?_⟩, ⟨?_, ?_, ?_, rfl⟩⟩
  · rw [Fp.ofNat_zero]
    exact Fp.lt_zero_of_pos (by norm_num)
  · rw [Fp.ofNat_one]
    exact Fp.scale_rings_one_93_124
  · exact Fp.rings_five_93_124
  · exact Fp.eq_zero_one
  · rw [Fp.ofNat_zero]
    exact Fp.lt_zero_of_pos (by norm_num)
  · rw [Fp.ofNat_zero, Fp.ofNat_one]
    exact Fp.scale_rings_one_huge
  · rw [Fp.ofNat_zero]
    exact Fp.rings_four_huge

/-! ## Claims that hold in exact arithmetic and, in part, in binary64 -/

/-- C20, as amended: for `s > 0`, `scale(g(1), Point(s, s))(p) = g(s)(p)` for `g`
among `steps`, `checker` and `stripes`, in exact arithmetic and in binary64;
for `g = rings` the equation holds in exact arithmetic (over the reals). -/
theorem scale_unit_generator (s : ℝ) (hs : 0 < s) (p : Point ℝ)
    (s2 : Fp.Dbl) (hs2 : Fp.Dbl.lt (Fp.Dbl.ofNat 0) s2 = true) (p2 : Point Fp.Dbl) :
    (scale (steps 1) (Point.mk s s) p = steps s p
      ∧ scale (checker 1) (Point.mk s s) p = checker s p
      ∧ scale (rings 1) (Point.mk s s) p = rings s p
      ∧ scale (stripes 1) (Point.mk s s) p = stripes s p)
    ∧ (Fp.scale (Fp.steps (Fp.Dbl.ofNat 1)) (Point.mk s2 s2) p2 = Fp.steps s2 p2
      ∧ Fp.scale (Fp.checker (Fp.Dbl.ofNat 1)) (Point.mk s2 s2) p2 = Fp.checker s2 p2
      ∧ Fp.scale (Fp.stripes (Fp.Dbl.ofNat 1)) (Point.mk s2 s2) p2 = Fp.stripes s2 p2) := by
  have h1 : ¬ ((1 : ℝ) ≤ 0) := by norm_num
  have hs0 : ¬ (s ≤ 0) := not_le.mpr hs
  have hne : s ≠ 0 := ne_of_gt hs
  rw [Fp.ofNat_zero] at hs2
  refine ⟨⟨?_, ?_, ?_, ?_⟩, ⟨Fp.scale_steps_one s2 hs2 p2, Fp.scale_checker_one s2 hs2 p2,
    Fp.scale_stripes_one s2 hs2 p2⟩⟩
  · simp only [scale, steps, if_neg h1, if_neg hs0, div_one]
  · simp only [scale, checker, if_neg h1, if_neg hs0, div_one]
  · have hzero : (p.x / s = 0 ∧ p.y / s = 0) ↔ (p.x = 0 ∧ p.y = 0) := by
      simp [div_eq_zero_iff, hne]
    have hsum : p.x / s * (p.x / s) + p.y / s * (p.y / s)
        = (p.x * p.x + p.y * p.y) / (s * s) := by
      field_simp
    have hsqrt : Real.sqrt (p.x / s * (p.x / s) + p.y / s * (p.y / s))
        = Real.sqrt (p.x * p.x + p.y * p.y) / s := by
      rw [hsum, Real.sqrt_div (add_nonneg (mul_self_nonneg _) (mul_self_nonneg _)),
        Real.sqrt_mul_self (le_of_lt hs)]
    simp only [scale, rings, if_neg h1, if_neg hs0, div_one, hzero, hsqrt]
  · simp only [scale, stripes, if_neg h1, if_neg hs0, div_one]

/-- Witness for C20: scale 2 at the point `(3, 4)`, over the reals and in binary64. -/
theorem scale_unit_generator_witness :
    (0 : ℝ) < 2 ∧ Fp.Dbl.lt (Fp.Dbl.ofNat 0) (Fp.Dbl.fin false 2) = true
      ∧ ((scale (steps 1) (Point.mk 2 2) (Point.mk 3 4) = steps (2 : ℝ) (Point.mk 3 4)
          ∧ scale (checker 1) (Point.mk 2 2) (Point.mk 3 4) = checker (2 : ℝ) (Point.mk 3 4)
          ∧ scale (rings 1) (Point.mk 2 2) (Point.mk 3 4) = rings (2 : ℝ) (Point.mk 3 4)
          ∧ scale (stripes 1) (Point.mk 2 2) (Point.mk 3 4) = stripes (2 : ℝ) (Point.mk 3 4))
        ∧ (Fp.scale (Fp.steps (Fp.Dbl.ofNat 1))
              (Point.mk (Fp.Dbl.fin false 2) (Fp.Dbl.fin false 2))
              (Point.mk (Fp.Dbl.fin false 3) (Fp.Dbl.fin false 4))
            = Fp.steps (Fp.Dbl.fin false 2) (Point.mk (Fp.Dbl.fin false 3) (Fp.Dbl.fin false 4))
          ∧ Fp.scale (Fp.checker (Fp.Dbl.ofNat 1))
              (Point.mk (Fp.Dbl.fin false 2) (Fp.Dbl.fin false 2))
              (Point.mk (Fp.Dbl.fin false 3) (Fp.Dbl.fin false 4))
            = Fp.checker (Fp.Dbl.fin false 2)
                (Point.mk (Fp.Dbl.fin false 3) (Fp.Dbl.fin false 4))
          ∧ Fp.scale (Fp.stripes (Fp.Dbl.ofNat 1))
              (Point.mk (Fp.Dbl.fin false 2) (Fp.Dbl.fin false 2))
              (Point.mk (Fp.Dbl.fin false 3) (Fp.Dbl.fin false 4))
            = Fp.stripes (Fp.Dbl.fin false 2)
                (Point.mk (Fp.Dbl.fin false 3) (Fp.Dbl.fin false 4)))) :=
  have h : Fp.Dbl.lt (Fp.Dbl.ofNat 0) (Fp.Dbl.fin false 2) = true := by
    rw [Fp.ofNat_zero]
    exact Fp.lt_zero_of_pos (by norm_num)
  ⟨by norm_num, h, scale_unit_generator 2 (by norm_num) (Point.mk 3 4) (Fp.Dbl.fin false 2) h
    (Point.mk (Fp.Dbl.fin false 3) (Fp.Dbl.fin false 4))⟩

end Surfaces
